import Mathlib

/-!
Verification development for the historical crawler
(`src/backend/src/services/crawlers/historical-crawler.js`).

The JavaScript source is shallowly embedded: each class method that the
properties below mention is translated into a Lean function over explicit
state; the Supabase store is modelled as in-memory tables with the
uniqueness constraints the schema declares, and file-system state as
`Option` values.  Wall-clock timestamps, UUID identifiers and log strings
that no property depends on are omitted from the embedded records; all
other behaviour follows the source line by line.
-/

namespace Crawler

/-! ## Chunker: `SupabaseUploader.createChunks` (source lines 297-347)

`createChunks(text, ...)` splits `text` on whitespace runs
(`text.split(/\s+/)`), accumulates words into a buffer, and emits the
buffer as a chunk whenever appending the next word would push it past
`CHUNK_SIZE`; the fresh buffer is seeded with the last
`Math.floor(CHUNK_OVERLAP / 10)` words of the emitted chunk plus the word
that triggered the split. -/

/-- Whitespace test used throughout: the characters JavaScript's `\s`
matches that can occur in the crawler's extracted text (space, tab, CR,
LF) — exactly Lean's `Char.isWhitespace` set. -/
def isWsChar (c : Char) : Bool := c.isWhitespace

/-- Core of `String.prototype.split(/\s+/)` on a character list: a
maximal run of whitespace separates two pieces, so a leading or trailing
run contributes an empty piece and the empty string yields `[[]]` —
matching JavaScript (`"".split(/\s+/) = [""]`,
`" a ".split(/\s+/) = ["", "a", ""]`, `"a  b".split(/\s+/) = ["a","b"]`).
Structured as a right fold: a whitespace character opens a new (empty)
piece in front exactly when it is the last character of its run. -/
def splitWsCore : List Char → List (List Char)
  | [] => [[]]
  | c :: rest =>
    let ts := splitWsCore rest
    if isWsChar c then
      match rest with
      | [] => [] :: ts
      | d :: _ => if isWsChar d then ts else [] :: ts
    else
      match ts with
      | [] => [[c]]
      | t :: ts2 => (c :: t) :: ts2

/-- `text.split(/\s+/)` of the source. -/
def splitWs (s : String) : List String :=
  (splitWsCore s.data).map String.mk

/-- `HISTORICAL_CONFIG.CHUNK_SIZE` (source line 72). -/
def CHUNK_SIZE : Nat := 1500

/-- `HISTORICAL_CONFIG.CHUNK_OVERLAP` (source line 73). -/
def CHUNK_OVERLAP : Nat := 200

/-- One element of the array `createChunks` returns.  The source object
also carries a fresh UUID, the document/case ids, copied metadata fields
and a timestamp; none of the verified properties mention them, so only
the content, its length and the sequence index are modelled. -/
structure ChunkRec where
  content : String
  content_length : Nat
  chunk_index : Nat
deriving Repr, DecidableEq

/-- JavaScript `arr.slice(-n)` for `n > 0`: the last `min n arr.length`
elements. -/
def sliceLast (n : Nat) (l : List α) : List α :=
  l.drop (l.length - n)

/-- JavaScript `arr.join(' ')`: the pieces separated by single
spaces. -/
def joinSpace : List String → String
  | [] => ""
  | [t] => t
  | t :: ts => t ++ " " ++ joinSpace ts

/-- `overlapWords.join(' ')` for a previously emitted chunk:
`overlapWords` are the last `Math.floor(CHUNK_OVERLAP / 10)` words of
its content (source line 320). -/
def overlapJoin (prevContent : String) : String :=
  joinSpace (sliceLast (CHUNK_OVERLAP / 10) (splitWs prevContent))

/-- The seed of the buffer after a split:
`overlapWords.join(' ') + ' ' + word` where `word` triggered the split
(source line 321). -/
def seedOf (prevContent word : String) : String :=
  overlapJoin prevContent ++ " " ++ word

/-- Truthiness of `currentChunk.trim()` (source line 330): `trim` removes
leading and trailing whitespace, so the result is truthy (non-empty) iff
some character of the string is not whitespace. -/
def trimTruthy (s : String) : Bool := s.data.any (fun c => !(isWsChar c))

/-- The `for` loop of `createChunks` plus the final flush, as a recursion
over the word list.  State: remaining words, `currentChunk`,
`chunkIndex`, and the chunks pushed so far (in order). -/
def chunkLoop : List String → String → Nat → List ChunkRec → List ChunkRec
  | [], currentChunk, chunkIndex, chunks =>
    if trimTruthy currentChunk then
      chunks ++ [⟨currentChunk, currentChunk.length, chunkIndex⟩]
    else
      chunks
  | word :: rest, currentChunk, chunkIndex, chunks =>
    let testChunk := currentChunk ++ (if currentChunk ≠ "" then " " else "") ++ word
    if testChunk.length > CHUNK_SIZE ∧ currentChunk.length > 0 then
      chunkLoop rest (seedOf currentChunk word) (chunkIndex + 1)
        (chunks ++ [⟨currentChunk, currentChunk.length, chunkIndex⟩])
    else
      chunkLoop rest testChunk chunkIndex chunks

/-- `SupabaseUploader.createChunks`, restricted to the fields the
properties mention (content, length, index). -/
def createChunks (text : String) : List ChunkRec :=
  chunkLoop (splitWs text) "" 0 []

/-- `joinSpace` at the character-list level, for reasoning about the
buffer contents. -/
def JData : List (List Char) → List Char
  | [] => []
  | [t] => t
  | t :: ts => t ++ ' ' :: JData ts

/-- A word carries no whitespace characters (true of every piece of a
`split(/\s+/)`). -/
def wsFreeStr (w : String) : Prop := ∀ c ∈ w.data, isWsChar c = false

/-- A well-formed token list for a buffer: nonempty, whitespace-free
tokens.  The buffer is then exactly their single-space join, and
`split(/\s+/)` recovers them. -/
def tokensOkL (cw : List (List Char)) : Prop :=
  ∀ t ∈ cw, t ≠ [] ∧ ∀ c ∈ t, isWsChar c = false

/-- Relation between consecutive chunks: the earlier one is a
well-formed single-space join of tokens, and the later one starts with
the earlier one's overlap join followed by a space — the seed the
source builds at the split. -/
def PairP (c c' : ChunkRec) : Prop :=
  (∃ cw, cw ≠ [] ∧ tokensOkL cw ∧ c.content.data = JData cw) ∧
  ((overlapJoin c.content ++ " ").data).IsPrefix c'.content.data

/-- The size disjunction for the chunk at position `k` of `l`: within
`CHUNK_SIZE`, or a single input word emitted as-is, or an unmodified
overlap seed built from the preceding chunk and an input word. -/
def SizeP (OW : List String) (l : List ChunkRec) (k : Nat) (c : ChunkRec) : Prop :=
  c.content.length ≤ CHUNK_SIZE ∨ (∃ w ∈ OW, c.content = w) ∨
  (∃ p w, k ≠ 0 ∧ l[k - 1]? = some p ∧ w ∈ OW ∧ c.content = seedOf p.content w)

/-! ## Persistence gateway: `SupabaseUploader.ensureCaseExists`
(source lines 232-287) and `uploadDocument` (lines 354-437)

The relational store is modelled in memory.  The schema
(`001_initial_schema.sql`) declares `CREATE UNIQUE INDEX
unique_case_number ON cases(case_number)` and `unique_document_per_case
ON documents(case_id, document_name)`; inserts violating them fail with
Postgres error 23505.  A supabase-js `.single()` query resolves with
`data` equal to the row when exactly one row matches and `data = null`
otherwise.  Row ids (UUIDs in the source) are modelled as the store's
running counter; case rows keep only the natural key, since no verified
property reads the descriptive columns. -/

structure CaseRow where
  id : Nat
  case_number : String
deriving Repr, DecidableEq

/-- Shared state touched by `ensureCaseExists`: the `cases` table plus
the uploader's in-memory `caseCache` (a JS `Map`, modelled as an
association list where the most recent binding shadows older ones). -/
structure CaseStore where
  rows : List CaseRow
  nextId : Nat
  cache : List (String × Nat)
deriving Repr, DecidableEq

def cacheLookup (s : CaseStore) (cn : String) : Option Nat :=
  (s.cache.find? (fun p => p.1 = cn)).map (fun p => p.2)

def cacheSet (s : CaseStore) (cn : String) (i : Nat) : CaseStore :=
  { s with cache := (cn, i) :: s.cache }

def rowsFor (s : CaseStore) (cn : String) : List CaseRow :=
  s.rows.filter (fun r => r.case_number = cn)

/-- `supabase.from('cases').select('id').eq('case_number', cn).single()`:
the id when exactly one row matches, `null` otherwise. -/
def selectCaseId (s : CaseStore) (cn : String) : Option Nat :=
  match rowsFor s cn with
  | [r] => some r.id
  | _ => none

/-- `supabase.from('cases').insert({case_number: cn, ...})`: appends a
fresh row, or fails (Postgres 23505, the branch `error.code === '23505'`
of the source) when `unique_case_number` is violated. -/
def insertCase (s : CaseStore) (cn : String) : Except Unit (Nat × CaseStore) :=
  if (rowsFor s cn).isEmpty then
    Except.ok (s.nextId,
      { s with rows := s.rows ++ [⟨s.nextId, cn⟩], nextId := s.nextId + 1 })
  else
    Except.error ()

/-- Program counter of one in-flight `ensureCaseExists(caseInfo)` call.
JavaScript interleaves concurrent calls only at `await` boundaries, so
one step below is one awaited store operation together with the
synchronous code that follows it up to the next `await` (or return). -/
inductive EnsurePc where
  | start
  | selPending
  | insPending
  | raceSelPending
  | finished (r : Except String Nat)
deriving Repr

/-- One step of `ensureCaseExists` for case number `cn`:
`start` runs the synchronous cache check; `selPending` the lookup by
natural key; `insPending` the insert, moving to the 23505 race branch on
a uniqueness violation; `raceSelPending` the re-query of that branch,
which returns the now-existing id or throws
`Failed to create case ...`. -/
def ensureStep (cn : String) (s : CaseStore) : EnsurePc → CaseStore × EnsurePc
  | .start =>
    match cacheLookup s cn with
    | some i => (s, .finished (Except.ok i))
    | none => (s, .selPending)
  | .selPending =>
    match selectCaseId s cn with
    | some i => (cacheSet s cn i, .finished (Except.ok i))
    | none => (s, .insPending)
  | .insPending =>
    match insertCase s cn with
    | .ok (i, s1) => (cacheSet s1 cn i, .finished (Except.ok i))
    | .error _ => (s, .raceSelPending)
  | .raceSelPending =>
    match selectCaseId s cn with
    | some i => (cacheSet s cn i, .finished (Except.ok i))
    | none => (s, .finished (Except.error ("Failed to create case " ++ cn)))
  | .finished r => (s, .finished r)

/-- Run the steps of a single (uncontended) `ensureCaseExists` call to
completion; four steps always reach `finished`. -/
def ensureRunSeq (cn : String) : Nat → CaseStore → EnsurePc → CaseStore × EnsurePc
  | 0, s, p => (s, p)
  | n + 1, s, p =>
    match ensureStep cn s p with
    | (s1, p1) => ensureRunSeq cn n s1 p1

/-- `ensureCaseExists` as called sequentially (e.g. from
`uploadDocument`). -/
def ensureCaseExists (s : CaseStore) (cn : String) : CaseStore × Except String Nat :=
  match ensureRunSeq cn 4 s .start with
  | (s1, .finished r) => (s1, r)
  | (s1, _) => (s1, Except.error "unreachable")

/-- Two concurrent `ensureCaseExists` calls for the same case number:
the schedule says which call performs its next step.  A finished call
steps to itself. -/
def ensureRace (cn : String) :
    CaseStore → EnsurePc → EnsurePc → List Bool → CaseStore × EnsurePc × EnsurePc
  | s, p, q, [] => (s, p, q)
  | s, p, q, true :: sch =>
    match ensureStep cn s p with
    | (s1, p1) => ensureRace cn s1 p1 q sch
  | s, p, q, false :: sch =>
    match ensureStep cn s q with
    | (s1, q1) => ensureRace cn s1 p q1 sch

/-- Store-level invariant of the race analysis: the store's server-side
`unique_case_number` constraint keeps at most one row per case number,
and the uploader's cache never points anywhere but at that row. -/
def rowInv (cn : String) (s : CaseStore) : Prop :=
  (rowsFor s cn).length ≤ 1 ∧
  ∀ i, cacheLookup s cn = some i → rowsFor s cn = [⟨i, cn⟩]

/-- What each program point of an in-flight `ensureCaseExists` call
guarantees about the shared state: the 23505 branch is only ever
entered once the row exists, and a finished call has returned the id of
the unique row (never the `Failed to create case` throw). -/
def pcInv (cn : String) (s : CaseStore) : EnsurePc → Prop
  | .start => True
  | .selPending => True
  | .insPending => True
  | .raceSelPending => rowsFor s cn ≠ []
  | .finished (Except.ok i) => rowsFor s cn = [⟨i, cn⟩] ∧ cacheLookup s cn = some i
  | .finished (Except.error _) => False

/-- Combined invariant of the two racing calls. -/
def raceInv (cn : String) (s : CaseStore) (p q : EnsurePc) : Prop :=
  rowInv cn s ∧ pcInv cn s p ∧ pcInv cn s q

/-- One row of the `documents` table (columns the source writes or
reads; `extracted_at`/`created_at` timestamps omitted). -/
structure DocRow where
  id : Nat
  case_id : Nat
  document_name : String
  document_type : String
  document_url : String
  witness_name : String
  extraction_status : String
deriving Repr, DecidableEq

/-- One row of the `document_chunks` table (the metadata copies a chunk
row carries beyond these are not read by any verified property). -/
structure ChunkRow where
  document_id : Nat
  case_id : Nat
  content : String
  content_length : Nat
  chunk_index : Nat
deriving Repr, DecidableEq

/-- The store as `uploadDocument` sees it. -/
structure DB where
  caseStore : CaseStore
  documents : List DocRow
  nextDocId : Nat
  chunks : List ChunkRow
deriving Repr, DecidableEq

/-- Argument object of `uploadDocument` (`documentData`); of `caseInfo`
only the natural key is consulted by the modelled store. -/
structure DocumentData where
  caseNumber : String
  documentName : String
  documentType : String
  documentUrl : String
  witnessName : String
  extractedText : String
deriving Repr, DecidableEq

/-- `supabase.from('documents').select(...).eq('document_url', url)
.single()`. -/
def selectDocByUrl (db : DB) (url : String) : Option DocRow :=
  match db.documents.filter (fun r => r.document_url = url) with
  | [r] => some r
  | _ => none

/-- Result object of `uploadDocument`; JS fields absent on a branch are
`false`/`none` here. -/
structure UploadResult where
  success : Bool
  duplicate : Bool
  skipped : Bool
  chunksCreated : Nat
  documentId : Option Nat
  caseId : Option Nat
  error : Option String
deriving Repr, DecidableEq

/-- `SupabaseUploader.uploadDocument`.  The chunk-insert loop of the
source walks batches of 100; each batch insert appends its rows in
order and the modelled insert cannot fail, so the loop's net effect is
appending all chunk rows, which is how it is written here.  A document
insert violating `unique_document_per_case` throws, caught by the
method's `try/catch` into a `success: false` result. -/
def uploadDocument (db : DB) (dd : DocumentData) : DB × UploadResult :=
  match ensureCaseExists db.caseStore dd.caseNumber with
  | (cs1, .error e) =>
    ({ db with caseStore := cs1 },
     ⟨false, false, false, 0, none, none, some e⟩)
  | (cs1, .ok caseId) =>
    let db1 : DB := { db with caseStore := cs1 }
    match selectDocByUrl db1 dd.documentUrl with
    | some ex =>
      (db1, ⟨true, true, true, 0, some ex.id, some ex.case_id, none⟩)
    | none =>
      if db1.documents.any
          (fun r => r.case_id = caseId ∧ r.document_name = dd.documentName) then
        (db1, ⟨false, false, false, 0, none, none,
               some "Failed to create document: duplicate key"⟩)
      else
        let docId := db1.nextDocId
        let db2 : DB :=
          { db1 with
            documents := db1.documents ++
              [⟨docId, caseId, dd.documentName, dd.documentType,
                dd.documentUrl, dd.witnessName, "completed"⟩],
            nextDocId := docId + 1 }
        let cks := createChunks dd.extractedText
        let rows := cks.map
          (fun c => ChunkRow.mk docId caseId c.content c.content_length c.chunk_index)
        ({ db2 with chunks := db2.chunks ++ rows },
         ⟨true, false, false, cks.length, some docId, some caseId, none⟩)

/-! ## `HistoricalCrawler.checkDocumentExistsByUrl`
(source lines 2089-2110) -/

/-- How the awaited supabase lookup can come back: resolved with
row-or-null data plus an optional error carrying a code, or rejected
(the `catch` branch). -/
inductive LookupOutcome where
  | ok (data : Option DocRow) (errorCode : Option String)
  | threw (msg : String)
deriving Repr, DecidableEq

/-- `checkDocumentExistsByUrl`: any resolved error whose code is not
`PGRST116` (no rows found) yields `false`, a rejection is caught and
yields `false`, otherwise the truthiness of the returned row. -/
def checkDocumentExistsByUrl : LookupOutcome → Bool
  | .ok data err =>
    match err with
    | some code => if code ≠ "PGRST116" then false else data.isSome
    | none => data.isSome
  | .threw _ => false

/-- The duplicate gate the worker runs before extraction (source lines
1843-1878): with `checkDuplicates` set it first consults the pipeline
file's `processedDocuments` keys, then the store by URL; the result is
`true` iff a skip result was produced, i.e. extraction is NOT invoked. -/
def workerSkipsExtraction (checkDuplicates : Bool)
    (pipelineProcessed : List String) (docKey : String)
    (dbLookup : LookupOutcome) : Bool :=
  if checkDuplicates then
    if pipelineProcessed.contains docKey then true
    else checkDocumentExistsByUrl dbLookup
  else false

/-! ## Retry ledger: `SmartRetryQueue` (source lines 446-581) -/

/-- `attemptInfo` as the worker builds it (ISO timestamp omitted). -/
structure AttemptInfo where
  error : String
  workerId : Nat
  documentName : String
  caseNumber : String
  documentUrl : String
deriving Repr, DecidableEq

/-- Value of the `failedDocuments` map. -/
structure FailRecord where
  attempts : List AttemptInfo
  lastError : String
  documentName : String
  caseNumber : String
deriving Repr, DecidableEq

/-- An entry of `./blacklisted-documents.json` as
`logBlacklistedDocument` builds it (timestamps omitted). -/
structure BlacklistEntry where
  queueId : String
  documentName : String
  caseNumber : String
  attemptsCount : Nat
  errors : List String
deriving Repr, DecidableEq

/-- `SmartRetryQueue` state: the `failedDocuments` map (association
list, newest binding first), the `maxRetries` constructor argument, and
the contents of the blacklist-log file. -/
structure RetryQueueState where
  failedDocuments : List (String × FailRecord)
  maxRetries : Nat
  blacklistLog : List BlacklistEntry
deriving Repr, DecidableEq

def rqLookup (rq : RetryQueueState) (qid : String) : Option FailRecord :=
  (rq.failedDocuments.find? (fun p => p.1 = qid)).map (fun p => p.2)

/-- `recordFailure(queueId, attemptInfo)`: create the record on first
failure, append the attempt, and return the new attempt count. -/
def recordFailure (rq : RetryQueueState) (qid : String) (info : AttemptInfo) :
    RetryQueueState × Nat :=
  let rec0 : FailRecord :=
    match rqLookup rq qid with
    | none => ⟨[], "", info.documentName, info.caseNumber⟩
    | some r => r
  let rec1 : FailRecord :=
    { rec0 with attempts := rec0.attempts ++ [info], lastError := info.error }
  ({ rq with failedDocuments := (qid, rec1) :: rq.failedDocuments },
   rec1.attempts.length)

/-- `shouldRetry(queueId)`. -/
def shouldRetry (rq : RetryQueueState) (qid : String) : Bool :=
  match rqLookup rq qid with
  | none => true
  | some r => r.attempts.length < rq.maxRetries

/-- `{wait, name}` timing tier. -/
structure TimingTier where
  wait : Nat
  name : String
deriving Repr, DecidableEq

/-- `HISTORICAL_CONFIG.SPEED.PROGRESSIVE_TIMING.WEBLINK_ATTEMPTS`
(source lines 52-56). -/
def WEBLINK_ATTEMPTS : List TimingTier :=
  [⟨300, "fast"⟩, ⟨600, "medium"⟩, ⟨1200, "slow"⟩]

/-- `...PROGRESSIVE_TIMING.LASERFICHE_ATTEMPTS` (source lines 57-61). -/
def LASERFICHE_ATTEMPTS : List TimingTier :=
  [⟨200, "fast"⟩, ⟨400, "medium"⟩, ⟨800, "slow"⟩]

/-- `getNextAttemptSpeed(queueId, documentType)`: index the viewer-kind
table at `Math.min(attemptNumber, table.length - 1)`.  The index is
always in range, so the `getD` default is never consulted. -/
def getNextAttemptSpeed (rq : RetryQueueState) (qid : String)
    (documentType : String) : TimingTier :=
  let attemptNumber :=
    match rqLookup rq qid with
    | none => 0
    | some r => r.attempts.length
  let timingConfig :=
    if documentType = "weblink_iframe" then WEBLINK_ATTEMPTS else LASERFICHE_ATTEMPTS
  timingConfig.getD (min attemptNumber (timingConfig.length - 1)) ⟨0, ""⟩

/-- `logBlacklistedDocument` (source lines 534-556).  Its `try` block
begins `const fs = require('fs')`.  The crawler file is an ES module
(top-level `import` declarations, executed directly by `node`), and
`require` is not defined in ES-module scope, so this line throws a
`ReferenceError` before any file access; the `catch` prints a warning
and returns.  The function's net effect on the blacklist-log file is
therefore none, which is how it is embedded. -/
def logBlacklistedDocument (rq : RetryQueueState) (_qid _dn _cn : String)
    (_attempts : List AttemptInfo) : RetryQueueState :=
  rq

/-- The append `logBlacklistedDocument` would perform if its file access
worked, modelled from the spec's words: the ledger "durably appends a
blacklist entry (document identity, all attempt errors, timestamps) to
an append-only log".  Kept for comparison with the embedded behaviour. -/
def logBlacklistedDocumentIntended (rq : RetryQueueState) (qid dn cn : String)
    (attempts : List AttemptInfo) : RetryQueueState :=
  { rq with blacklistLog := rq.blacklistLog ++
      [⟨qid, dn, cn, attempts.length, attempts.map (fun a => a.error)⟩] }

/-- `shouldBlacklist(queueId)`: once the recorded attempts reach
`maxRetries`, logs the blacklist entry (a no-op on the file, see
`logBlacklistedDocument`) and returns true. -/
def shouldBlacklist (rq : RetryQueueState) (qid : String) :
    RetryQueueState × Bool :=
  match rqLookup rq qid with
  | none => (rq, false)
  | some r =>
    if r.attempts.length ≥ rq.maxRetries then
      (logBlacklistedDocument rq qid r.documentName r.caseNumber r.attempts, true)
    else
      (rq, false)

/-! ## Worker failure handling: `HistoricalCrawler.documentWorker`
(source lines 1899-1955) -/

/-- A queued document work unit (fields the failure path reads). -/
structure WorkDoc where
  queueId : String
  text : String
  caseNumber : String
  href : String
deriving Repr, DecidableEq

/-- What became of a failed work unit. -/
inductive HandlerOutcome where
  | requeued
  | blacklisted
  | terminalFailure
  | silentlyDropped
deriving Repr, DecidableEq

/-- The worker's handling of a null extraction result ("No text
extracted"), lines 1925-1947: only under `!useCaseQueue && sharedQueue`
does it record the failure and decide between re-enqueue (push to the
back of the shared queue), blacklist drop, and terminal-failure drop
(`progressTracker.recordError()` counts the drops).  In the case-based
queue mode (`useCaseQueue = true`, `sharedQueue = null`) no branch
fires and the unit is dropped with no ledger record.  The `&&` of the
source short-circuits, so `shouldBlacklist` runs inside the condition
only when `shouldRetry` is true, and runs again in the else branch. -/
def handleFailedExtraction (useCaseQueue : Bool)
    (sharedQueue : Option (List WorkDoc)) (doc : WorkDoc) (workerId : Nat)
    (rq : RetryQueueState) (errors : Nat) :
    RetryQueueState × Option (List WorkDoc) × Nat × HandlerOutcome :=
  match useCaseQueue, sharedQueue with
  | false, some q =>
    let info : AttemptInfo :=
      ⟨"No text extracted", workerId, doc.text, doc.caseNumber, doc.href⟩
    let rq1 := (recordFailure rq doc.queueId info).1
    if shouldRetry rq1 doc.queueId then
      match shouldBlacklist rq1 doc.queueId with
      | (rq2, false) => (rq2, some (q ++ [doc]), errors, .requeued)
      | (rq2, true) =>
        match shouldBlacklist rq2 doc.queueId with
        | (rq3, true) => (rq3, some q, errors + 1, .blacklisted)
        | (rq3, false) => (rq3, some q, errors + 1, .terminalFailure)
    else
      match shouldBlacklist rq1 doc.queueId with
      | (rq2, true) => (rq2, some q, errors + 1, .blacklisted)
      | (rq2, false) => (rq2, some q, errors + 1, .terminalFailure)
  | _, _ => (rq, sharedQueue, errors, .silentlyDropped)

/-! ## Queue coordinator: `HistoricalCrawler.getNextCase`
(source lines 2771-2821) -/

/-- `baseWaitTime` — 30 seconds. -/
def baseWaitTime : Nat := 30000

/-- `extendedWaitTime` — 2 minutes while discovery is active. -/
def extendedWaitTime : Nat := 120000

/-- What one iteration of `getNextCase`'s `while (true)` loop observes:
the elapsed milliseconds since the call started and the shared
`discoveryComplete` flag and case queue, which discovery mutates
between iterations.  Within one iteration the synchronous reads see one
consistent snapshot. -/
structure QObs where
  elapsed : Nat
  discoveryComplete : Bool
  caseQueue : List String
deriving Repr, DecidableEq

/-- One loop iteration: `some none` returns null ("no more work"),
`some (some c)` shifts and returns the front case bundle, `none` sleeps
and iterates again.  Mirrors the source order: the timeout test (with
its keep-waiting re-check) runs before the queue is examined, and an
empty queue with discovery complete returns null immediately. -/
def getNextCaseStep (o : QObs) : Option (Option String) :=
  let maxWaitTime := if o.discoveryComplete then baseWaitTime else extendedWaitTime
  if o.elapsed > maxWaitTime then
    if ¬o.discoveryComplete ∧ o.elapsed < extendedWaitTime then none
    else some none
  else
    match o.caseQueue with
    | c :: _ => some (some c)
    | [] => if o.discoveryComplete then some none else none

/-- A whole `getNextCase` call over a finite trace of per-iteration
observations; `none` means the trace ended with the loop still
waiting. -/
def getNextCaseRun : List QObs → Option (Option String)
  | [] => none
  | o :: rest =>
    match getNextCaseStep o with
    | some r => some r
    | none => getNextCaseRun rest

/-! ## Checkpoint pipeline file (source lines 1989-2004, 2148-2171,
2247-2297, 2351-2361) -/

/-- A case object as the pipeline file stores it. -/
structure CaseLite where
  caseNumber : String
  company : String
  description : String
  caseUrl : String
  utilityType : String
deriving Repr, DecidableEq

/-- `discovered-cases-pipeline.json` contents (timestamp omitted). -/
structure PipelineData where
  totalCases : Nat
  cases : List CaseLite
  processedDocuments : List String
  status : String
deriving Repr, DecidableEq

/-- `HistoricalCrawler.savePipeline(discoveredCases)`: builds a fresh
pipeline object — with `processedDocuments: []` — and overwrites the
whole file regardless of its previous contents. -/
def savePipeline (_file : Option PipelineData)
    (discoveredCases : List CaseLite) : Option PipelineData :=
  some ⟨discoveredCases.length, discoveredCases, [], "discovery_complete"⟩

/-- `HistoricalCrawler.updatePipelineAfterDocument(documentName,
caseNumber)`: no-op when the file is absent; otherwise appends
`caseNumber:documentName` to `processedDocuments` (rewriting the whole
file) unless already present, in which case the file is not
rewritten. -/
def updatePipelineAfterDocument (file : Option PipelineData)
    (documentName caseNumber : String) : Option PipelineData :=
  match file with
  | none => none
  | some p =>
    let docKey := caseNumber ++ ":" ++ documentName
    if p.processedDocuments.contains docKey then some p
    else some { p with processedDocuments := p.processedDocuments ++ [docKey] }

/-- `HistoricalCrawler.clearPipeline()`: deletes the file. -/
def clearPipeline (_file : Option PipelineData) : Option PipelineData :=
  none

/-- `HistoricalCrawler.performFinalVerification()`: re-discovers the
source's case numbers (modelled as the input list, after the method's
date filtering), fetches the store's case numbers, and computes the
missing cases.  The method only logs the diff — every branch, including
a non-empty diff, merely prints and returns. -/
def performFinalVerification (sourceCaseNumbers dbCaseNumbers : List String) :
    List String :=
  sourceCaseNumbers.filter (fun cn => ¬ dbCaseNumbers.contains cn)

/-- The tail of `crawlHistoricalData` (lines 1296-1302, identically
lines 2415-2419 of `buildMultiYearQueue`): after discovery and
processing finish, run the final verification, then call
`clearPipeline()` — unconditionally, whatever the verification found. -/
def crawlTail (sourceCaseNumbers dbCaseNumbers : List String)
    (file : Option PipelineData) : List String × Option PipelineData :=
  let missing := performFinalVerification sourceCaseNumbers dbCaseNumbers
  (missing, clearPipeline file)

/-! ## Concrete fixtures used by counterexamples and witnesses -/

/-- A fresh retry queue, `new SmartRetryQueue(3)` as `documentWorker`
receives it. -/
def rqFresh : RetryQueueState := ⟨[], 3, []⟩

/-- The attempt info the worker records on a failed extraction of the
fixture document. -/
def attemptFix : AttemptInfo :=
  ⟨"No text extracted", 1, "Doc.PDF", "CASE-1", "http://docs/1"⟩

/-- Retry state after one recorded failure of queue id `q1`. -/
def rqAfter1 : RetryQueueState := (recordFailure rqFresh "q1" attemptFix).1

/-- Retry state after two recorded failures of `q1`. -/
def rqAfter2 : RetryQueueState := (recordFailure rqAfter1 "q1" attemptFix).1

/-- Retry state after three recorded failures of `q1`. -/
def rqAfter3 : RetryQueueState := (recordFailure rqAfter2 "q1" attemptFix).1

/-- Fixture work unit. -/
def wdFix : WorkDoc := ⟨"q1", "Doc.PDF", "CASE-1", "http://docs/1"⟩

/-- Fixture pipeline case. -/
def caseFix : CaseLite :=
  ⟨"CASE-1", "Idaho Power", "rate case", "http://cases/1", "electric"⟩

/-- Fixture pipeline file with one recorded processed-document marker. -/
def pipeFix : PipelineData := ⟨1, [caseFix], ["CASE-1:Doc.PDF"], "discovery_complete"⟩

/-- A 71-character word; 20 of them joined by spaces measure 1439
characters, within `CHUNK_SIZE`, while 21 measure 1511. -/
def word71 : String := String.mk (List.replicate 71 'a')

/-- 22 copies of `word71` separated by single spaces: input whose second
chunk is an overlap-seeded buffer of 1511 characters, exceeding
`CHUNK_SIZE = 1500` although every word is 71 characters long. -/
def text22x71 : String := String.intercalate " " (List.replicate 22 word71)

/-- The first chunk the crawler's chunker produces for `text22x71`:
20 words, 1439 characters. -/
def chunk22A : ChunkRec := ⟨String.intercalate " " (List.replicate 20 word71), 1439, 0⟩

/-- The second chunk produced for `text22x71`: its 20-word overlap seed
plus the 21st word, 1511 characters — above `CHUNK_SIZE`. -/
def chunk22B : ChunkRec := ⟨String.intercalate " " (List.replicate 21 word71), 1511, 1⟩

/-- Fixture document payload for the upload theorems. -/
def ddFix : DocumentData :=
  ⟨"CASE-1", "Doc.PDF", "testimony", "http://docs/1", "Smith", "hello chunked world"⟩

/-- An empty store. -/
def dbEmpty : DB := ⟨⟨[], 0, []⟩, [], 0, []⟩

/-! # Helper lemmas -/

/-- `Map.set` then `Map.get` on the cache returns the value just set. -/
theorem cacheLookup_cacheSet (s : CaseStore) (cn : String) (i : Nat) :
    cacheLookup (cacheSet s cn i) cn = some i := by
  unfold cacheLookup cacheSet
  simp [List.find?]

/-- Setting the cache does not touch the `cases` table. -/
theorem rowsFor_cacheSet (s : CaseStore) (cn cn2 : String) (i : Nat) :
    rowsFor (cacheSet s cn i) cn2 = rowsFor s cn2 := rfl

/-- Under the uniqueness invariant, the `.single()` lookup either misses
on an absent row or hits the one existing row. -/
theorem selectCaseId_cases (s : CaseStore) (cn : String)
    (hU : (rowsFor s cn).length ≤ 1) :
    (rowsFor s cn = [] ∧ selectCaseId s cn = none) ∨
    (∃ i, rowsFor s cn = [⟨i, cn⟩] ∧ selectCaseId s cn = some i) := by
  match hr : rowsFor s cn, hU with
  | [], _ =>
    left
    exact ⟨rfl, by unfold selectCaseId; rw [hr]⟩
  | [r], _ =>
    right
    have hmem : r ∈ rowsFor s cn := by rw [hr]; exact List.mem_singleton.mpr rfl
    have hcn : r.case_number = cn := by
      unfold rowsFor at hmem
      simpa using (List.mem_filter.mp hmem).2
    refine ⟨r.id, ?_, by unfold selectCaseId; rw [hr]⟩
    cases r with
    | mk rid rcn =>
      simp only at hcn
      rw [hcn]

/-- A call that finds the case number in the cache touches nothing and
returns the cached id. -/
theorem ensureCaseExists_cached (s : CaseStore) (cn : String) (i : Nat)
    (h : cacheLookup s cn = some i) :
    ensureCaseExists s cn = (s, Except.ok i) := by
  simp [ensureCaseExists, ensureRunSeq, ensureStep, h]

/-- An uncontended `ensureCaseExists` on a store with at most one row
for the case number always succeeds, caches the id, and preserves the
uniqueness bound. -/
theorem ensureCaseExists_ok (s : CaseStore) (cn : String)
    (hU : (rowsFor s cn).length ≤ 1) :
    ∃ i s2, ensureCaseExists s cn = (s2, Except.ok i) ∧
      cacheLookup s2 cn = some i ∧
      (rowsFor s2 cn).length ≤ 1 ∧
      (s2.rows = s.rows ∨ s2.rows = s.rows ++ [⟨s.nextId, cn⟩]) := by
  cases hc : cacheLookup s cn with
  | some i =>
    exact ⟨i, s, ensureCaseExists_cached s cn i hc, hc, hU, Or.inl rfl⟩
  | none =>
    match hr : rowsFor s cn, hU with
    | [r], _ =>
      have hsel : selectCaseId s cn = some r.id := by
        unfold selectCaseId; rw [hr]
      refine ⟨r.id, cacheSet s cn r.id, ?_, cacheLookup_cacheSet s cn r.id, ?_, Or.inl rfl⟩
      · simp [ensureCaseExists, ensureRunSeq, ensureStep, hc, hsel]
      · have h2 : rowsFor (cacheSet s cn r.id) cn = rowsFor s cn := rfl
        rw [h2, hr]; simp
    | [], _ =>
      have hsel : selectCaseId s cn = none := by
        unfold selectCaseId; rw [hr]
      have hins : insertCase s cn = Except.ok (s.nextId,
          { s with rows := s.rows ++ [⟨s.nextId, cn⟩], nextId := s.nextId + 1 }) := by
        unfold insertCase; rw [hr]; rfl
      refine ⟨s.nextId,
        cacheSet { s with rows := s.rows ++ [⟨s.nextId, cn⟩], nextId := s.nextId + 1 } cn s.nextId,
        ?_, cacheLookup_cacheSet _ cn s.nextId, ?_, Or.inr rfl⟩
      · simp [ensureCaseExists, ensureRunSeq, ensureStep, hc, hsel, hins]
      · show (rowsFor { s with rows := s.rows ++ [⟨s.nextId, cn⟩], nextId := s.nextId + 1 } cn).length ≤ 1
        unfold rowsFor at hr ⊢
        simp [List.filter_append, hr]

/-- Inserting the fresh row into a store without one leaves exactly that
row under the case number. -/
theorem rowsFor_inserted (s : CaseStore) (cn : String) (hr : rowsFor s cn = []) :
    rowsFor { s with rows := s.rows ++ [⟨s.nextId, cn⟩], nextId := s.nextId + 1 } cn
      = [⟨s.nextId, cn⟩] := by
  unfold rowsFor
  simp only [List.filter_append]
  have h0 : List.filter (fun r => decide (r.case_number = cn)) s.rows = [] := hr
  rw [h0]
  simp

/-- A program-point invariant survives any state change that keeps the
rows for the case number and the cached binding. -/
theorem pcInv_mono (cn : String) (s s1 : CaseStore) (q : EnsurePc)
    (hrows : rowsFor s1 cn = rowsFor s cn)
    (hcl : ∀ j, cacheLookup s cn = some j → cacheLookup s1 cn = some j)
    (h : pcInv cn s q) : pcInv cn s1 q := by
  cases q with
  | start => trivial
  | selPending => trivial
  | insPending => trivial
  | raceSelPending =>
    simp only [pcInv] at h ⊢
    rw [hrows]; exact h
  | finished r =>
    cases r with
    | ok i =>
      simp only [pcInv] at h ⊢
      exact ⟨hrows.trans h.1, hcl i h.2⟩
    | error e => exact h.elim

/-- One step of either racing `ensureCaseExists` call preserves the race
invariant. -/
theorem ensureStep_preserves (cn : String) (s : CaseStore) (p q : EnsurePc)
    (h : raceInv cn s p q) :
    raceInv cn (ensureStep cn s p).1 (ensureStep cn s p).2 q := by
  obtain ⟨hrow, hp, hq⟩ := h
  cases p with
  | start =>
    cases hc : cacheLookup s cn with
    | none => simp only [ensureStep, hc]; exact ⟨hrow, trivial, hq⟩
    | some i =>
      simp only [ensureStep, hc]
      exact ⟨hrow, ⟨hrow.2 i hc, hc⟩, hq⟩
  | selPending =>
    rcases selectCaseId_cases s cn hrow.1 with ⟨hr, hsel⟩ | ⟨i, hr, hsel⟩
    · simp only [ensureStep, hsel]
      exact ⟨hrow, trivial, hq⟩
    · simp only [ensureStep, hsel]
      have hcl : ∀ j, cacheLookup s cn = some j → cacheLookup (cacheSet s cn i) cn = some j := by
        intro j hj
        have h2 : rowsFor s cn = [⟨j, cn⟩] := hrow.2 j hj
        rw [hr] at h2
        have hij : i = j := by
          simp only [List.cons.injEq, CaseRow.mk.injEq] at h2
          exact h2.1.1
        rw [cacheLookup_cacheSet, hij]
      refine ⟨⟨?_, ?_⟩, ⟨(rowsFor_cacheSet s cn cn i).trans hr, cacheLookup_cacheSet s cn i⟩,
        pcInv_mono cn s _ q (rowsFor_cacheSet s cn cn i) hcl hq⟩
      · rw [rowsFor_cacheSet, hr]; simp
      · intro j hj
        rw [cacheLookup_cacheSet] at hj
        cases hj
        rw [rowsFor_cacheSet, hr]
  | insPending =>
    cases hr : rowsFor s cn with
    | nil =>
      have hins : insertCase s cn = Except.ok (s.nextId,
          { s with rows := s.rows ++ [⟨s.nextId, cn⟩], nextId := s.nextId + 1 }) := by
        unfold insertCase; rw [hr]; rfl
      simp only [ensureStep, hins]
      have hrows1 := rowsFor_inserted s cn hr
      refine ⟨⟨?_, ?_⟩,
        ⟨(rowsFor_cacheSet _ cn cn _).trans hrows1, cacheLookup_cacheSet _ cn s.nextId⟩, ?_⟩
      · rw [rowsFor_cacheSet, hrows1]; simp
      · intro j hj
        rw [cacheLookup_cacheSet] at hj
        cases hj
        rw [rowsFor_cacheSet]
        exact hrows1
      · cases q with
        | start => trivial
        | selPending => trivial
        | insPending => trivial
        | raceSelPending => exact absurd hr (by simpa [pcInv] using hq)
        | finished r =>
          cases r with
          | ok j => exact absurd (hq.1.symm.trans hr) (by simp)
          | error e => exact hq.elim
    | cons r t =>
      have hemp : (rowsFor s cn).isEmpty = false := by rw [hr]; rfl
      have hins : insertCase s cn = Except.error () := by
        unfold insertCase
        rw [hemp]
        rfl
      simp only [ensureStep, hins]
      refine ⟨hrow, ?_, hq⟩
      show rowsFor s cn ≠ []
      rw [hr]; simp
  | raceSelPending =>
    have hne : rowsFor s cn ≠ [] := hp
    rcases selectCaseId_cases s cn hrow.1 with ⟨hr, hsel⟩ | ⟨i, hr, hsel⟩
    · exact absurd hr hne
    · simp only [ensureStep, hsel]
      have hcl : ∀ j, cacheLookup s cn = some j → cacheLookup (cacheSet s cn i) cn = some j := by
        intro j hj
        have h2 : rowsFor s cn = [⟨j, cn⟩] := hrow.2 j hj
        rw [hr] at h2
        have hij : i = j := by
          simp only [List.cons.injEq, CaseRow.mk.injEq] at h2
          exact h2.1.1
        rw [cacheLookup_cacheSet, hij]
      refine ⟨⟨?_, ?_⟩, ⟨(rowsFor_cacheSet s cn cn i).trans hr, cacheLookup_cacheSet s cn i⟩,
        pcInv_mono cn s _ q (rowsFor_cacheSet s cn cn i) hcl hq⟩
      · rw [rowsFor_cacheSet, hr]; simp
      · intro j hj
        rw [cacheLookup_cacheSet] at hj
        cases hj
        rw [rowsFor_cacheSet, hr]
  | finished r =>
    simp only [ensureStep]
    exact ⟨hrow, hp, hq⟩

/-- The race invariant is symmetric in the two calls. -/
theorem raceInv_swap (cn : String) (s : CaseStore) (p q : EnsurePc)
    (h : raceInv cn s p q) : raceInv cn s q p :=
  ⟨h.1, h.2.2, h.2.1⟩

/-- The race invariant holds after any interleaving. -/
theorem ensureRace_inv (cn : String) (sch : List Bool) (s : CaseStore) (p q : EnsurePc)
    (h : raceInv cn s p q) :
    raceInv cn (ensureRace cn s p q sch).1
      (ensureRace cn s p q sch).2.1 (ensureRace cn s p q sch).2.2 := by
  induction sch generalizing s p q with
  | nil => exact h
  | cons b sch ih =>
    cases b with
    | true =>
      show raceInv cn (ensureRace cn (ensureStep cn s p).1 (ensureStep cn s p).2 q sch).1 _ _
      exact ih _ _ _ (ensureStep_preserves cn s p q h)
    | false =>
      show raceInv cn (ensureRace cn (ensureStep cn s q).1 p (ensureStep cn s q).2 sch).1 _ _
      exact ih _ _ _ (raceInv_swap _ _ _ _ (ensureStep_preserves cn s q p (raceInv_swap _ _ _ _ h)))

/-! # C1 -/

/-- C1: two `ensureCaseExists` calls for the same case number, however
interleaved over a store enforcing uniqueness of the case natural key,
both finish with `Except.ok` of the same id — the 23505/duplicate-key
race branch re-queries and returns the existing row instead of raising
— exactly one row for that case number exists afterwards, and the id is
cached. -/
theorem ensureCase_race_consistent (cn : String) (s0 : CaseStore) (sch : List Bool)
    (hInv : rowInv cn s0)
    {s1 : CaseStore} {r1 r2 : Except String Nat}
    (hrun : ensureRace cn s0 .start .start sch = (s1, .finished r1, .finished r2)) :
    ∃ i, r1 = Except.ok i ∧ r2 = Except.ok i ∧
      rowsFor s1 cn = [⟨i, cn⟩] ∧ cacheLookup s1 cn = some i := by
  have h := ensureRace_inv cn sch s0 .start .start ⟨hInv, trivial, trivial⟩
  rw [hrun] at h
  obtain ⟨hrow, hp, hq⟩ := h
  cases r1 with
  | error e => exact hp.elim
  | ok i =>
    cases r2 with
    | error e => exact hq.elim
    | ok j =>
      have hij : i = j := by
        have h2 := hp.1.symm.trans hq.1
        simp only [List.cons.injEq, CaseRow.mk.injEq] at h2
        exact h2.1.1
      exact ⟨i, rfl, by rw [hij], hp.1, hp.2⟩

/-- Witness for C1: a schedule in which worker 1 inserts while worker 2
is between its miss and its insert, so worker 2 takes the 23505 branch;
both finish with id 0 and one row exists. -/
theorem ensureCase_race_consistent_witness :
    rowInv "CASE-1" ⟨[], 0, []⟩ ∧
    ∃ i, (Except.ok 0 : Except String Nat) = Except.ok i ∧
      (Except.ok 0 : Except String Nat) = Except.ok i ∧
      rowsFor ⟨[⟨0, "CASE-1"⟩], 1, [("CASE-1", 0), ("CASE-1", 0)]⟩ "CASE-1"
        = [⟨i, "CASE-1"⟩] ∧
      cacheLookup ⟨[⟨0, "CASE-1"⟩], 1, [("CASE-1", 0), ("CASE-1", 0)]⟩ "CASE-1"
        = some i := by
  have hInv : rowInv "CASE-1" ⟨[], 0, []⟩ := by
    constructor
    · decide
    · intro i h
      exact absurd h (by simp [cacheLookup, List.find?])
  exact ⟨hInv, ensureCase_race_consistent "CASE-1" ⟨[], 0, []⟩
    [true, true, false, false, true, false, false] hInv rfl⟩

/-! # C2 -/

/-- C2: `uploadDocument` on a payload whose URL already has its (unique)
row returns `success` with `duplicate: true` and `chunksCreated: 0` and
inserts no document row and no chunk row; consequently two sequential
calls with the same URL leave exactly one document row carrying that
URL, the second call reporting the duplicate with zero additional
chunks and changing neither the documents nor the chunks table. -/
theorem uploadDocument_url_dedup (db : DB) (dd : DocumentData)
    (hCase : (rowsFor db.caseStore dd.caseNumber).length ≤ 1) :
    (∀ ex : DocRow,
      db.documents.filter (fun r => r.document_url = dd.documentUrl) = [ex] →
      (uploadDocument db dd).2.success = true ∧
      (uploadDocument db dd).2.duplicate = true ∧
      (uploadDocument db dd).2.chunksCreated = 0 ∧
      (uploadDocument db dd).1.documents = db.documents ∧
      (uploadDocument db dd).1.chunks = db.chunks) ∧
    ((∀ r ∈ db.documents, r.document_url ≠ dd.documentUrl) →
     (∀ r ∈ db.documents, r.document_name ≠ dd.documentName) →
      (uploadDocument db dd).2.success = true ∧
      (uploadDocument db dd).2.duplicate = false ∧
      (uploadDocument (uploadDocument db dd).1 dd).2.success = true ∧
      (uploadDocument (uploadDocument db dd).1 dd).2.duplicate = true ∧
      (uploadDocument (uploadDocument db dd).1 dd).2.chunksCreated = 0 ∧
      ((uploadDocument (uploadDocument db dd).1 dd).1.documents.filter
          (fun r => r.document_url = dd.documentUrl)).length = 1 ∧
      (uploadDocument (uploadDocument db dd).1 dd).1.documents
        = (uploadDocument db dd).1.documents ∧
      (uploadDocument (uploadDocument db dd).1 dd).1.chunks
        = (uploadDocument db dd).1.chunks) := by
  obtain ⟨i, s2, heq, hcache, hU2, hrows⟩ := ensureCaseExists_ok db.caseStore dd.caseNumber hCase
  constructor
  · intro ex hex
    have hsel : selectDocByUrl { db with caseStore := s2 } dd.documentUrl = some ex := by
      unfold selectDocByUrl
      show (match db.documents.filter (fun r => r.document_url = dd.documentUrl) with
        | [r] => some r | _ => none) = some ex
      rw [hex]
    simp [uploadDocument, heq, hsel]
  · intro hAbs hName
    have hfilter : db.documents.filter (fun r => r.document_url = dd.documentUrl) = [] := by
      rw [List.filter_eq_nil_iff]
      intro r hr
      simp [hAbs r hr]
    have hsel : selectDocByUrl { db with caseStore := s2 } dd.documentUrl = none := by
      unfold selectDocByUrl
      show (match db.documents.filter (fun r => r.document_url = dd.documentUrl) with
        | [r] => some r | _ => none) = none
      rw [hfilter]
    have hany : ({ db with caseStore := s2 } : DB).documents.any
        (fun r => decide (r.case_id = i ∧ r.document_name = dd.documentName)) = false := by
      simp only [List.any_eq_false]
      intro r hr
      simp [hName r hr]
    have hfst : uploadDocument db dd =
        ({ caseStore := s2,
           documents := db.documents ++
             [⟨db.nextDocId, i, dd.documentName, dd.documentType,
               dd.documentUrl, dd.witnessName, "completed"⟩],
           nextDocId := db.nextDocId + 1,
           chunks := db.chunks ++ (createChunks dd.extractedText).map
             (fun c => ChunkRow.mk db.nextDocId i c.content c.content_length c.chunk_index) },
         ⟨true, false, false, (createChunks dd.extractedText).length,
          some db.nextDocId, some i, none⟩) := by
      simp [uploadDocument, heq, hsel, hany]
      exact fun x hx _ => hName x hx
    have hsel2 : selectDocByUrl
        { caseStore := s2,
          documents := db.documents ++
            [⟨db.nextDocId, i, dd.documentName, dd.documentType,
              dd.documentUrl, dd.witnessName, "completed"⟩],
          nextDocId := db.nextDocId + 1,
          chunks := db.chunks ++ (createChunks dd.extractedText).map
            (fun c => ChunkRow.mk db.nextDocId i c.content c.content_length c.chunk_index) }
        dd.documentUrl =
        some ⟨db.nextDocId, i, dd.documentName, dd.documentType,
              dd.documentUrl, dd.witnessName, "completed"⟩ := by
      unfold selectDocByUrl
      simp [List.filter_append, hfilter]
    have hcached2 : ensureCaseExists s2 dd.caseNumber = (s2, Except.ok i) :=
      ensureCaseExists_cached s2 dd.caseNumber i hcache
    have hsnd : uploadDocument
        { caseStore := s2,
          documents := db.documents ++
            [⟨db.nextDocId, i, dd.documentName, dd.documentType,
              dd.documentUrl, dd.witnessName, "completed"⟩],
          nextDocId := db.nextDocId + 1,
          chunks := db.chunks ++ (createChunks dd.extractedText).map
            (fun c => ChunkRow.mk db.nextDocId i c.content c.content_length c.chunk_index) } dd =
        ({ caseStore := s2,
           documents := db.documents ++
             [⟨db.nextDocId, i, dd.documentName, dd.documentType,
               dd.documentUrl, dd.witnessName, "completed"⟩],
           nextDocId := db.nextDocId + 1,
           chunks := db.chunks ++ (createChunks dd.extractedText).map
             (fun c => ChunkRow.mk db.nextDocId i c.content c.content_length c.chunk_index) },
         ⟨true, true, true, 0, some db.nextDocId, some i, none⟩) := by
      simp [uploadDocument, hcached2, hsel2]
    rw [hfst]
    refine ⟨rfl, rfl, ?_, ?_, ?_, ?_, ?_, ?_⟩ <;>
      (simp only []; rw [hsnd]) <;> try rfl
    rw [List.filter_append, hfilter]
    simp

/-- Witness for C2: uploading the fixture document twice into the empty
store. -/
theorem uploadDocument_url_dedup_witness :
    (rowsFor dbEmpty.caseStore ddFix.caseNumber).length ≤ 1 ∧
    ((uploadDocument dbEmpty ddFix).2.success = true ∧
     (uploadDocument dbEmpty ddFix).2.duplicate = false ∧
     (uploadDocument (uploadDocument dbEmpty ddFix).1 ddFix).2.success = true ∧
     (uploadDocument (uploadDocument dbEmpty ddFix).1 ddFix).2.duplicate = true ∧
     (uploadDocument (uploadDocument dbEmpty ddFix).1 ddFix).2.chunksCreated = 0 ∧
     ((uploadDocument (uploadDocument dbEmpty ddFix).1 ddFix).1.documents.filter
         (fun r => r.document_url = ddFix.documentUrl)).length = 1 ∧
     (uploadDocument (uploadDocument dbEmpty ddFix).1 ddFix).1.documents
       = (uploadDocument dbEmpty ddFix).1.documents ∧
     (uploadDocument (uploadDocument dbEmpty ddFix).1 ddFix).1.chunks
       = (uploadDocument dbEmpty ddFix).1.chunks) :=
  ⟨by decide,
   (uploadDocument_url_dedup dbEmpty ddFix (by decide)).2
     (fun r hr => absurd hr (List.not_mem_nil r))
     (fun r hr => absurd hr (List.not_mem_nil r))⟩

/-! # C3 -/

/-- C3 (code bug): the timing tiers for three consecutive failures are
the viewer-kind table entries fast/medium/slow — non-decreasing — and
after the third recorded failure `shouldBlacklist` returns true; but
the blacklist-log file gains no entry, because `logBlacklistedDocument`
calls `require('fs')` inside an ES module, which throws before any file
access and is swallowed by its `catch`.  The spec-modelled append (last
conjunct) would have produced exactly one entry. -/
theorem retry_escalation_blacklist_log_divergence :
    (getNextAttemptSpeed rqFresh "q1" "weblink_iframe").wait = 300 ∧
    (getNextAttemptSpeed rqAfter1 "q1" "weblink_iframe").wait = 600 ∧
    (getNextAttemptSpeed rqAfter2 "q1" "weblink_iframe").wait = 1200 ∧
    (300 ≤ 600 ∧ 600 ≤ 1200) ∧
    (shouldBlacklist rqAfter3 "q1").2 = true ∧
    (shouldBlacklist rqAfter3 "q1").1.blacklistLog = [] ∧
    (match rqLookup rqAfter3 "q1" with
     | some r => (logBlacklistedDocumentIntended rqAfter3 "q1" r.documentName
         r.caseNumber r.attempts).blacklistLog.length
     | none => 0) = 1 := by
  decide

/-! # C5 -/

/-- Counterexample to C5: in the case-based queue mode
(`useCaseQueue = true`, no shared queue — exactly how
`startParallelProcessing` runs `documentWorker`), a failed extraction
leaves the retry ledger untouched and the unit is dropped silently: no
failure is recorded, contradicting the claim that the worker records
the failure in every mode. -/
theorem caseQueue_failure_unrecorded_cex :
    handleFailedExtraction true none wdFix 1 rqFresh 0
      = (rqFresh, none, 0, .silentlyDropped) ∧
    rqLookup (handleFailedExtraction true none wdFix 1 rqFresh 0).1 "q1" = none :=
  ⟨rfl, rfl⟩

/-- Lookup after `recordFailure` finds the updated record, whose attempt
count is the returned one. -/
theorem rqLookup_after_record (rq : RetryQueueState) (qid : String) (info : AttemptInfo) :
    ∃ r, rqLookup (recordFailure rq qid info).1 qid = some r ∧
      r.attempts.length = (recordFailure rq qid info).2 := by
  unfold recordFailure rqLookup
  simp [List.find?]

/-- `recordFailure` returns the previous attempt count plus one. -/
theorem recordFailure_count (rq : RetryQueueState) (qid : String) (info : AttemptInfo) :
    (recordFailure rq qid info).2 =
      (match rqLookup rq qid with | none => 0 | some r => r.attempts.length) + 1 := by
  unfold recordFailure
  cases h : rqLookup rq qid <;> simp [h]

/-- In the shared-queue mode the failure handler reduces to: record the
failure, then re-enqueue while the new count is below `maxRetries`, else
drop with the blacklist flag and an error count. -/
theorem handleFailed_shared (q : List WorkDoc) (doc : WorkDoc) (wid : Nat)
    (rq : RetryQueueState) (errors : Nat) :
    handleFailedExtraction false (some q) doc wid rq errors =
      (if (recordFailure rq doc.queueId
            ⟨"No text extracted", wid, doc.text, doc.caseNumber, doc.href⟩).2 < rq.maxRetries
       then ((recordFailure rq doc.queueId
            ⟨"No text extracted", wid, doc.text, doc.caseNumber, doc.href⟩).1,
            some (q ++ [doc]), errors, .requeued)
       else ((recordFailure rq doc.queueId
            ⟨"No text extracted", wid, doc.text, doc.caseNumber, doc.href⟩).1,
            some q, errors + 1, .blacklisted)) := by
  obtain ⟨r, hr, hlen⟩ := rqLookup_after_record rq doc.queueId
    ⟨"No text extracted", wid, doc.text, doc.caseNumber, doc.href⟩
  have hmax : (recordFailure rq doc.queueId
      ⟨"No text extracted", wid, doc.text, doc.caseNumber, doc.href⟩).1.maxRetries
      = rq.maxRetries := rfl
  have hsr : shouldRetry (recordFailure rq doc.queueId
      ⟨"No text extracted", wid, doc.text, doc.caseNumber, doc.href⟩).1 doc.queueId
      = decide ((recordFailure rq doc.queueId
          ⟨"No text extracted", wid, doc.text, doc.caseNumber, doc.href⟩).2 < rq.maxRetries) := by
    unfold shouldRetry
    rw [hr, hmax]
    simp [hlen]
  have hsb : shouldBlacklist (recordFailure rq doc.queueId
      ⟨"No text extracted", wid, doc.text, doc.caseNumber, doc.href⟩).1 doc.queueId
      = ((recordFailure rq doc.queueId
          ⟨"No text extracted", wid, doc.text, doc.caseNumber, doc.href⟩).1,
         decide (rq.maxRetries ≤ (recordFailure rq doc.queueId
          ⟨"No text extracted", wid, doc.text, doc.caseNumber, doc.href⟩).2)) := by
    unfold shouldBlacklist
    rw [hr, hmax]
    by_cases hge : rq.maxRetries ≤ r.attempts.length
    · simp [hge, hlen ▸ hge, logBlacklistedDocument]
    · simp [hge, hlen ▸ hge]
  simp only [handleFailedExtraction, hsr, hsb]
  by_cases hlt : (recordFailure rq doc.queueId
      ⟨"No text extracted", wid, doc.text, doc.caseNumber, doc.href⟩).2 < rq.maxRetries
  · simp [hlt, Nat.not_le.mpr hlt]
  · simp [hlt, Nat.le_of_not_lt hlt]

/-- C5 (amended): with the shared queue (`useCaseQueue = false`) and a
3-retry ledger, a failed extraction records the failure (attempt count
incremented by one), then either re-enqueues the unit at the back of
the queue it came from (count still below 3) or drops it as
blacklisted, counting an error; in the case-based mode the unit is
dropped with nothing recorded (see the counterexample). -/
theorem sharedQueue_retry_decision (q : List WorkDoc) (doc : WorkDoc) (wid : Nat)
    (rq : RetryQueueState) (errors : Nat) (hmax : rq.maxRetries = 3) :
    (∃ r, rqLookup (handleFailedExtraction false (some q) doc wid rq errors).1 doc.queueId
        = some r ∧
      r.attempts.length = (recordFailure rq doc.queueId
        ⟨"No text extracted", wid, doc.text, doc.caseNumber, doc.href⟩).2 ∧
      (recordFailure rq doc.queueId
        ⟨"No text extracted", wid, doc.text, doc.caseNumber, doc.href⟩).2 =
        (match rqLookup rq doc.queueId with
         | none => 0
         | some r0 => r0.attempts.length) + 1) ∧
    ((recordFailure rq doc.queueId
        ⟨"No text extracted", wid, doc.text, doc.caseNumber, doc.href⟩).2 < 3 →
      (handleFailedExtraction false (some q) doc wid rq errors).2.1 = some (q ++ [doc]) ∧
      (handleFailedExtraction false (some q) doc wid rq errors).2.2.2
        = HandlerOutcome.requeued) ∧
    (3 ≤ (recordFailure rq doc.queueId
        ⟨"No text extracted", wid, doc.text, doc.caseNumber, doc.href⟩).2 →
      (handleFailedExtraction false (some q) doc wid rq errors).2.1 = some q ∧
      (handleFailedExtraction false (some q) doc wid rq errors).2.2.2
        = HandlerOutcome.blacklisted ∧
      (handleFailedExtraction false (some q) doc wid rq errors).2.2.1 = errors + 1) := by
  rw [handleFailed_shared, hmax]
  refine ⟨?_, ?_, ?_⟩
  · by_cases hlt : (recordFailure rq doc.queueId
      ⟨"No text extracted", wid, doc.text, doc.caseNumber, doc.href⟩).2 < 3
    · rw [if_pos hlt]
      obtain ⟨r, hr, hlen⟩ := rqLookup_after_record rq doc.queueId
        ⟨"No text extracted", wid, doc.text, doc.caseNumber, doc.href⟩
      exact ⟨r, hr, hlen, recordFailure_count _ _ _⟩
    · rw [if_neg hlt]
      obtain ⟨r, hr, hlen⟩ := rqLookup_after_record rq doc.queueId
        ⟨"No text extracted", wid, doc.text, doc.caseNumber, doc.href⟩
      exact ⟨r, hr, hlen, recordFailure_count _ _ _⟩
  · intro hlt
    rw [if_pos hlt]
    exact ⟨rfl, rfl⟩
  · intro hge
    rw [if_neg (Nat.not_lt.mpr hge)]
    exact ⟨rfl, rfl, rfl⟩

/-- Witness for C5: a first failure of the fixture unit is recorded and
re-enqueued. -/
theorem sharedQueue_retry_decision_witness :
    rqFresh.maxRetries = 3 ∧
    (recordFailure rqFresh wdFix.queueId
      ⟨"No text extracted", 1, wdFix.text, wdFix.caseNumber, wdFix.href⟩).2 < 3 ∧
    (handleFailedExtraction false (some []) wdFix 1 rqFresh 0).2.1 = some ([] ++ [wdFix]) ∧
    (handleFailedExtraction false (some []) wdFix 1 rqFresh 0).2.2.2
      = HandlerOutcome.requeued :=
  ⟨rfl, by decide,
   ((sharedQueue_retry_decision [] wdFix 1 rqFresh 0 rfl).2.1 (by decide)).1,
   ((sharedQueue_retry_decision [] wdFix 1 rqFresh 0 rfl).2.1 (by decide)).2⟩

/-! # C6 -/

/-- Counterexample to C6: `getNextCase` returns "no more work"
immediately — with zero elapsed time, long before any timeout — once
discovery is complete and the queue is empty; and it also returns "no
more work" while the discovery-complete flag is still false, once the
2-minute extended wait is exceeded. -/
theorem getNextCase_null_cex :
    (getNextCaseRun [⟨0, true, []⟩] = some none ∧ ¬ 0 > baseWaitTime) ∧
    getNextCaseRun [⟨120001, false, []⟩] = some none := by
  decide

/-- C6 (amended): `getNextCase` returns "no more work" only from an
iteration that either exceeded the applicable timeout (30 s once
discovery completed, 2 min while it runs — without re-examining the
queue) or observed an empty queue with discovery complete (immediately,
without waiting out the timeout); an iteration within its time budget
that observes a non-empty queue returns the front case bundle. -/
theorem getNextCase_null_characterization (trace : List QObs) :
    (getNextCaseRun trace = some none →
      ∃ o ∈ trace,
        getNextCaseStep o = some none ∧
        (o.elapsed > (if o.discoveryComplete then baseWaitTime else extendedWaitTime) ∨
          (o.caseQueue = [] ∧ o.discoveryComplete = true))) ∧
    (∀ (o : QObs) (c : String) (q : List String),
      o.caseQueue = c :: q →
      ¬ o.elapsed > (if o.discoveryComplete then baseWaitTime else extendedWaitTime) →
      getNextCaseStep o = some (some c)) := by
  constructor
  · induction trace with
    | nil => intro h; simp [getNextCaseRun] at h
    | cons o rest ih =>
      intro h
      simp only [getNextCaseRun] at h
      rcases hs : getNextCaseStep o with _ | r
      · rw [hs] at h
        rcases ih h with ⟨o2, ho2, hstep, hcond⟩
        exact ⟨o2, List.mem_cons_of_mem _ ho2, hstep, hcond⟩
      · rw [hs] at h
        rcases r with _ | c
        · refine ⟨o, List.mem_cons_self _ _, hs, ?_⟩
          unfold getNextCaseStep at hs
          by_cases htime : o.elapsed > (if o.discoveryComplete then baseWaitTime else extendedWaitTime)
          · exact Or.inl htime
          · rw [if_neg htime] at hs
            rcases hq : o.caseQueue with _ | ⟨c, q⟩
            · rw [hq] at hs
              by_cases hdc : o.discoveryComplete
              · exact Or.inr ⟨hq ▸ rfl, hdc⟩
              · simp [hdc] at hs
            · rw [hq] at hs
              simp at hs
        · simp at h
  · intro o c q hq htime
    unfold getNextCaseStep
    rw [if_neg htime, hq]

/-- Witness for C6: the deciding observation of a concrete
timed-out-while-discovering trace, and a front-of-queue return within
the budget. -/
theorem getNextCase_null_characterization_witness :
    getNextCaseRun [⟨121000, false, []⟩] = some none ∧
    (∃ o ∈ ([⟨121000, false, []⟩] : List QObs),
      getNextCaseStep o = some none ∧
      (o.elapsed > (if o.discoveryComplete then baseWaitTime else extendedWaitTime) ∨
        (o.caseQueue = [] ∧ o.discoveryComplete = true))) ∧
    getNextCaseStep ⟨5000, false, ["CASE-1"]⟩ = some (some "CASE-1") :=
  ⟨by decide,
   (getNextCase_null_characterization [⟨121000, false, []⟩]).1 (by decide),
   (getNextCase_null_characterization []).2 ⟨5000, false, ["CASE-1"]⟩ "CASE-1" [] rfl
     (by decide)⟩

/-! # C7 -/

/-- Counterexample to C7: `savePipeline` rewrites the snapshot with
`processedDocuments: []`, so the marker recorded in the existing file is
gone after a discovery-batch rewrite. -/
theorem savePipeline_wipes_markers_cex :
    (savePipeline (some pipeFix) [caseFix]).map PipelineData.processedDocuments
      = some [] ∧
    pipeFix.processedDocuments = ["CASE-1:Doc.PDF"] :=
  ⟨rfl, rfl⟩

/-- `updatePipelineAfterDocument` on an existing file, unfolded. -/
theorem updatePipelineAfterDocument_some (p : PipelineData) (dn cn : String) :
    updatePipelineAfterDocument (some p) dn cn =
      (if p.processedDocuments.contains (cn ++ ":" ++ dn) then some p
       else some { p with processedDocuments :=
         p.processedDocuments ++ [cn ++ ":" ++ dn] }) := rfl

/-- C7 (amended): every snapshot write is a whole-file overwrite with
the full current case list, but `savePipeline` resets the
processed-document marker set to empty; only
`updatePipelineAfterDocument` preserves the existing markers (and the
case list) while adding the new `caseNumber:documentName` key. -/
theorem pipeline_snapshot_writes (file : Option PipelineData) (cs : List CaseLite)
    (p : PipelineData) (dn cn : String) :
    savePipeline file cs = some ⟨cs.length, cs, [], "discovery_complete"⟩ ∧
    ∃ q, updatePipelineAfterDocument (some p) dn cn = some q ∧
      q.cases = p.cases ∧ q.totalCases = p.totalCases ∧
      (∀ k ∈ p.processedDocuments, k ∈ q.processedDocuments) ∧
      (cn ++ ":" ++ dn) ∈ q.processedDocuments := by
  refine ⟨rfl, ?_⟩
  rw [updatePipelineAfterDocument_some]
  by_cases h : p.processedDocuments.contains (cn ++ ":" ++ dn)
  · rw [if_pos h]
    exact ⟨p, rfl, rfl, rfl, fun k hk => hk, List.elem_iff.mp h⟩
  · rw [if_neg h]
    refine ⟨_, rfl, rfl, rfl, ?_, ?_⟩
    · intro k hk; exact List.mem_append_left _ hk
    · exact List.mem_append_right _ (List.mem_singleton.mpr rfl)

/-- Witness for C7: writing the fixture pipeline file. -/
theorem pipeline_snapshot_writes_witness :
    savePipeline (some pipeFix) [caseFix]
      = some ⟨[caseFix].length, [caseFix], [], "discovery_complete"⟩ ∧
    ∃ q, updatePipelineAfterDocument (some pipeFix) "Other.PDF" "CASE-1" = some q ∧
      q.cases = pipeFix.cases ∧ q.totalCases = pipeFix.totalCases ∧
      (∀ k ∈ pipeFix.processedDocuments, k ∈ q.processedDocuments) ∧
      ("CASE-1" ++ ":" ++ "Other.PDF") ∈ q.processedDocuments :=
  pipeline_snapshot_writes (some pipeFix) [caseFix] pipeFix "Other.PDF" "CASE-1"

/-! # C8 -/

/-- Counterexample to C8: a run whose final verification finds case
CASE-1 on the source but not in the store still deletes the pipeline
file. -/
theorem pipeline_cleared_despite_missing_cex :
    crawlTail ["CASE-1"] [] (some pipeFix) = (["CASE-1"], none) := by
  decide

/-- C8 (amended): after the main phases, the run reports exactly the
cases present on the source but absent from the store, and then deletes
the pipeline file unconditionally — whether or not that report is
empty. -/
theorem crawlTail_reports_and_clears (src db : List String) (file : Option PipelineData) :
    (crawlTail src db file).2 = none ∧
    (crawlTail src db file).1 = performFinalVerification src db ∧
    (∀ cn ∈ (crawlTail src db file).1, cn ∈ src ∧ ¬ cn ∈ db) := by
  refine ⟨rfl, rfl, ?_⟩
  intro cn hcn
  simp only [crawlTail, performFinalVerification, List.mem_filter,
    decide_eq_true_eq] at hcn
  exact ⟨hcn.1, fun hm => hcn.2 (List.elem_iff.mpr hm)⟩

/-- Witness for C8: the missing case of the counterexample run is on the
source and absent from the store, and the file is gone. -/
theorem crawlTail_reports_and_clears_witness :
    (crawlTail ["CASE-1"] [] (some pipeFix)).2 = none ∧
    ("CASE-1" ∈ (crawlTail ["CASE-1"] [] (some pipeFix)).1) ∧
    ("CASE-1" ∈ ["CASE-1"] ∧ ¬ "CASE-1" ∈ ([] : List String)) :=
  ⟨(crawlTail_reports_and_clears ["CASE-1"] [] (some pipeFix)).1,
   by decide,
   (crawlTail_reports_and_clears ["CASE-1"] [] (some pipeFix)).2.2 "CASE-1" (by decide)⟩

/-! # C10 -/

/-- C10: `checkDocumentExistsByUrl` never throws — a rejected lookup is
caught — and returns false whenever the lookup resolves with an error
other than `PGRST116` (no rows found); with the pipeline markers not
listing the document either, the worker's duplicate gate then produces
no skip result, so extraction proceeds. -/
theorem checkDocumentExistsByUrl_error_handling :
    (∀ (data : Option DocRow) (code : String), code ≠ "PGRST116" →
      checkDocumentExistsByUrl (.ok data (some code)) = false) ∧
    (∀ m : String, checkDocumentExistsByUrl (.threw m) = false) ∧
    (∀ (pl : List String) (docKey : String) (data : Option DocRow) (code : String),
      pl.contains docKey = false → code ≠ "PGRST116" →
      workerSkipsExtraction true pl docKey (.ok data (some code)) = false) := by
  refine ⟨?_, fun m => rfl, ?_⟩
  · intro data code hc
    simp [checkDocumentExistsByUrl, hc]
  · intro pl docKey data code hpl hc
    have hmem : docKey ∉ pl := by
      intro h
      have h2 : pl.contains docKey = true := List.elem_iff.mpr h
      rw [hpl] at h2
      exact Bool.false_ne_true h2
    simp [workerSkipsExtraction, hmem, checkDocumentExistsByUrl, hc]

/-- Witness for C10: a lookup failing with error code PGRST301 on a
document the pipeline has not recorded. -/
theorem checkDocumentExistsByUrl_error_handling_witness :
    checkDocumentExistsByUrl (.ok none (some "PGRST301")) = false ∧
    checkDocumentExistsByUrl (.threw "network unreachable") = false ∧
    workerSkipsExtraction true ["CASE-1:Doc.PDF"] "CASE-2:Other.PDF"
      (.ok none (some "PGRST301")) = false :=
  ⟨checkDocumentExistsByUrl_error_handling.1 none "PGRST301" (by decide),
   checkDocumentExistsByUrl_error_handling.2.1 "network unreachable",
   checkDocumentExistsByUrl_error_handling.2.2 ["CASE-1:Doc.PDF"] "CASE-2:Other.PDF"
     none "PGRST301" (by decide) (by decide)⟩

end Crawler



namespace Crawler

-- L1
theorem splitWsCore_ne_nil (l : List Char) : splitWsCore l ≠ [] := by
  cases l with
  | nil => simp [splitWsCore]
  | cons c rest =>
    unfold splitWsCore
    by_cases h : isWsChar c
    · simp only [h, if_true]
      cases rest with
      | nil => simp
      | cons d r =>
        by_cases hd : isWsChar d
        · simp only [hd, if_true]
          exact splitWsCore_ne_nil (d :: r)
        · simp [hd]
    · simp only [h, if_false]
      cases hts : splitWsCore rest with
      | nil => simp
      | cons t ts2 => simp

-- L5
theorem splitWsCore_cons_not_ws (c : Char) (rest : List Char) (h : isWsChar c = false) :
    ∃ t ts, splitWsCore rest = t :: ts ∧ splitWsCore (c :: rest) = (c :: t) :: ts := by
  cases hts : splitWsCore rest with
  | nil => exact absurd hts (splitWsCore_ne_nil rest)
  | cons t ts =>
    refine ⟨t, ts, rfl, ?_⟩
    unfold splitWsCore
    simp [h, hts]

-- L3
theorem splitWsCore_wsFree (l : List Char) :
    ∀ t ∈ splitWsCore l, ∀ c ∈ t, isWsChar c = false := by
  induction l with
  | nil =>
    intro t ht
    simp [splitWsCore] at ht
    subst ht
    intro c hc
    exact absurd hc (List.not_mem_nil c)
  | cons c rest ih =>
    intro t ht
    by_cases h : isWsChar c
    · unfold splitWsCore at ht
      simp only [h, if_true] at ht
      cases rest with
      | nil =>
        rcases List.mem_cons.mp ht with h1 | h1
        · subst h1; intro x hx; exact absurd hx (List.not_mem_nil x)
        · exact ih t h1
      | cons d r =>
        by_cases hd : isWsChar d
        · simp only [hd, if_true] at ht
          exact ih t ht
        · simp only [hd, if_false] at ht
          rcases List.mem_cons.mp ht with h1 | h1
          · subst h1; intro x hx; exact absurd hx (List.not_mem_nil x)
          · exact ih t h1
    · obtain ⟨t0, ts, hts, heq⟩ := splitWsCore_cons_not_ws c rest (Bool.not_eq_true _ ▸ (by simpa using h))
      rw [heq] at ht
      rcases List.mem_cons.mp ht with h1 | h1
      · subst h1
        intro x hx
        rcases List.mem_cons.mp hx with h2 | h2
        · subst h2; simpa using h
        · exact ih t0 (hts ▸ List.mem_cons_self t0 ts) x h2
      · exact ih t (hts ▸ List.mem_cons_of_mem t0 h1)

end Crawler

namespace Crawler

-- shape lemmas for the whitespace branches
theorem splitWsCore_ws_nil (c : Char) (hc : isWsChar c = true) :
    splitWsCore [c] = [[], []] := by
  simp [splitWsCore, hc]

theorem splitWsCore_ws_ws (c d : Char) (r : List Char)
    (hc : isWsChar c = true) (hd : isWsChar d = true) :
    splitWsCore (c :: d :: r) = splitWsCore (d :: r) := by
  simp [splitWsCore, hc, hd]

theorem splitWsCore_ws_notws (c d : Char) (r : List Char)
    (hc : isWsChar c = true) (hd : isWsChar d = false) :
    splitWsCore (c :: d :: r) = [] :: splitWsCore (d :: r) := by
  simp [splitWsCore, hc, hd]

-- L4': tokens with both a predecessor and a successor are nonempty
theorem splitWsCore_inner_ne_nil (l : List Char) :
    ∀ t ∈ (splitWsCore l).tail.dropLast, t ≠ [] := by
  induction l with
  | nil => simp [splitWsCore]
  | cons c rest ih =>
    by_cases h : isWsChar c
    · cases rest with
      | nil => rw [splitWsCore_ws_nil c h]; simp
      | cons d r =>
        by_cases hd : isWsChar d
        · rw [splitWsCore_ws_ws c d r h hd]
          exact ih
        · rw [splitWsCore_ws_notws c d r h (by simpa using hd)]
          intro t ht
          rw [List.tail_cons] at ht
          obtain ⟨t0, ts, hts, heq⟩ := splitWsCore_cons_not_ws d r (by simpa using hd)
          rw [heq] at ht
          cases ts with
          | nil => simp at ht
          | cons u us =>
            rw [List.dropLast_cons₂] at ht
            rcases List.mem_cons.mp ht with h1 | h1
            · subst h1; simp
            · have h3 := ih t
              rw [heq, List.tail_cons] at h3
              exact h3 h1
    · obtain ⟨t0, ts, hts, heq⟩ := splitWsCore_cons_not_ws c rest (by simpa using h)
      rw [heq]
      intro t ht
      rw [List.tail_cons] at ht
      have h3 := ih t
      rw [hts, List.tail_cons] at h3
      exact h3 ht

end Crawler

namespace Crawler

theorem JData_cons₂ (t u : List Char) (us : List (List Char)) :
    JData (t :: u :: us) = t ++ ' ' :: JData (u :: us) := rfl

theorem JData_ne_nil (t : List Char) (ts : List (List Char)) (h : t ≠ []) :
    JData (t :: ts) ≠ [] := by
  cases ts with
  | nil => exact h
  | cons u us =>
    rw [JData_cons₂]
    cases t with
    | nil => exact absurd rfl h
    | cons x xs => simp

theorem JData_append (t1 t2 : List (List Char)) (h1 : t1 ≠ []) (h2 : t2 ≠ []) :
    JData (t1 ++ t2) = JData t1 ++ ' ' :: JData t2 := by
  match t1 with
  | [x] =>
    cases t2 with
    | nil => exact absurd rfl h2
    | cons u us => rw [List.singleton_append, JData_cons₂]; rfl
  | x :: y :: ys =>
    have ih := JData_append (y :: ys) t2 (by simp) h2
    rw [show (x :: y :: ys) ++ t2 = x :: (y :: ys ++ t2) from rfl]
    rw [show JData (x :: (y :: ys ++ t2)) = x ++ ' ' :: JData (y :: ys ++ t2) from ?_]
    · rw [ih, JData_cons₂]
      simp
    · cases ys <;> rfl

theorem splitWsCore_single (t : List Char) (hne : t ≠ [])
    (hws : ∀ c ∈ t, isWsChar c = false) :
    splitWsCore t = [t] := by
  match t with
  | [c] =>
    obtain ⟨t0, ts, hts, heq⟩ := splitWsCore_cons_not_ws c []
      (hws c (List.mem_singleton.mpr rfl))
    simp [splitWsCore] at hts
    rw [heq, hts.1, hts.2]
  | c :: d :: r =>
    have ih := splitWsCore_single (d :: r) (by simp)
      (fun x hx => hws x (List.mem_cons_of_mem c hx))
    obtain ⟨t0, ts, hts, heq⟩ := splitWsCore_cons_not_ws c (d :: r)
      (hws c (List.mem_cons_self c _))
    rw [ih] at hts
    cases hts
    exact heq

theorem splitWsCore_prepend (t r : List Char)
    (hws : ∀ c ∈ t, isWsChar c = false) :
    ∃ h0 ts, splitWsCore r = h0 :: ts ∧ splitWsCore (t ++ r) = (t ++ h0) :: ts := by
  induction t with
  | nil =>
    cases hts : splitWsCore r with
    | nil => exact absurd hts (splitWsCore_ne_nil r)
    | cons h0 ts => exact ⟨h0, ts, rfl, by simpa using hts⟩
  | cons c t' ih =>
    obtain ⟨h0, ts, hts, heq⟩ := ih (fun x hx => hws x (List.mem_cons_of_mem c hx))
    obtain ⟨h1, ts1, hts1, heq1⟩ := splitWsCore_cons_not_ws c (t' ++ r)
      (hws c (List.mem_cons_self c _))
    rw [heq] at hts1
    cases hts1
    exact ⟨h0, ts, hts, by simpa using heq1⟩

theorem splitWsCore_JData (cw : List (List Char)) (hne : cw ≠ [])
    (hok : tokensOkL cw) :
    splitWsCore (JData cw) = cw := by
  match cw with
  | [t] =>
    exact splitWsCore_single t (hok t (List.mem_singleton.mpr rfl)).1
      (hok t (List.mem_singleton.mpr rfl)).2
  | t :: u :: us =>
    have hok2 : tokensOkL (u :: us) := fun x hx => hok x (List.mem_cons_of_mem t hx)
    have ih := splitWsCore_JData (u :: us) (by simp) hok2
    rw [JData_cons₂]
    -- splitWsCore (t ++ ' ' :: JData (u :: us)) = t :: u :: us
    obtain ⟨hu_ne, hu_ws⟩ := hok2 u (List.mem_cons_self u _)
    -- JData (u :: us) starts with a non-ws char
    obtain ⟨x, u', hu⟩ : ∃ x u', u = x :: u' := by
      cases u with
      | nil => exact absurd rfl hu_ne
      | cons x u' => exact ⟨x, u', rfl⟩
    have hJ : ∃ js, JData (u :: us) = x :: js := by
      cases us with
      | nil => exact ⟨u', by rw [hu]; rfl⟩
      | cons v vs =>
        rw [JData_cons₂, hu]
        exact ⟨u' ++ ' ' :: JData (v :: vs), rfl⟩
    obtain ⟨js, hJ⟩ := hJ
    have hxws : isWsChar x = false := hu_ws x (by rw [hu]; exact List.mem_cons_self x u')
    have hstep : splitWsCore (' ' :: JData (u :: us)) = [] :: splitWsCore (JData (u :: us)) := by
      rw [hJ]
      exact splitWsCore_ws_notws ' ' x js rfl hxws
    obtain ⟨h0, ts, hts, heq⟩ := splitWsCore_prepend t (' ' :: JData (u :: us))
      (hok t (List.mem_cons_self t _)).2
    rw [hstep, ih] at hts
    cases hts
    rw [heq]
    simp

end Crawler

namespace Crawler
example (s t : String) : (s ++ t).data = s.data ++ t.data := String.data_append s t
example : (" " : String).data = [' '] := rfl
example (l : List Char) : (String.mk l).data = l := rfl
example (s t : String) (h : s.data = t.data) : s = t := by
  cases s; cases t; simp at h; rw [h]
example (s : String) : s.length = s.data.length := rfl
end Crawler

namespace Crawler

theorem string_eq_of_data (s t : String) (h : s.data = t.data) : s = t := by
  cases s; cases t; simp at h; rw [h]

theorem joinSpace_data (ts : List String) :
    (joinSpace ts).data = JData (ts.map String.data) := by
  match ts with
  | [] => rfl
  | [t] => rfl
  | t :: u :: us =>
    have ih := joinSpace_data (u :: us)
    show ((t ++ " " ++ joinSpace (u :: us)).data) = _
    rw [String.data_append, String.data_append, ih]
    simp only [List.map_cons]
    rw [JData_cons₂]
    simp

theorem splitWs_map_data (s : String) :
    (splitWs s).map String.data = splitWsCore s.data := by
  unfold splitWs
  rw [List.map_map]
  have : (String.data ∘ String.mk) = id := rfl
  rw [this, List.map_id]

theorem sliceLast_map (n : Nat) (l : List String) :
    (sliceLast n l).map String.data = sliceLast n (l.map String.data) := by
  unfold sliceLast
  rw [List.map_drop, List.length_map]

theorem overlapJoin_data (s : String) (cw : List (List Char)) (hne : cw ≠ [])
    (hok : tokensOkL cw) (hdata : s.data = JData cw) :
    (overlapJoin s).data = JData (sliceLast (CHUNK_OVERLAP / 10) cw) := by
  unfold overlapJoin
  rw [joinSpace_data, sliceLast_map, splitWs_map_data, hdata, splitWsCore_JData cw hne hok]

theorem sliceLast_sub (n : Nat) (l : List α) : ∀ t ∈ sliceLast n l, t ∈ l := by
  intro t ht
  exact List.mem_of_mem_drop ht

theorem sliceLast_ne_nil (n : Nat) (hn : 0 < n) (l : List α) (h : l ≠ []) :
    sliceLast n l ≠ [] := by
  unfold sliceLast
  intro hc
  rw [List.drop_eq_nil_iff_le] at hc
  have hlen : 0 < l.length := List.length_pos.mpr h
  omega

theorem overlapJoin_suffix (s : String) (cw : List (List Char)) (hne : cw ≠ [])
    (hok : tokensOkL cw) (hdata : s.data = JData cw) :
    (overlapJoin s).data ≠ [] ∧ ((overlapJoin s).data).IsSuffix s.data := by
  have hd := overlapJoin_data s cw hne hok hdata
  have hslice_ne : sliceLast (CHUNK_OVERLAP / 10) cw ≠ [] :=
    sliceLast_ne_nil _ (by decide) cw hne
  obtain ⟨t0, ts0, hslice⟩ : ∃ t0 ts0, sliceLast (CHUNK_OVERLAP / 10) cw = t0 :: ts0 := by
    cases h : sliceLast (CHUNK_OVERLAP / 10) cw with
    | nil => exact absurd h hslice_ne
    | cons a b => exact ⟨a, b, rfl⟩
  have ht0 : t0 ∈ cw := sliceLast_sub _ cw t0 (hslice ▸ List.mem_cons_self t0 ts0)
  constructor
  · rw [hd, hslice]
    exact JData_ne_nil t0 ts0 (hok t0 ht0).1
  · rw [hd, hdata]
    have hsplit : cw = cw.take (cw.length - CHUNK_OVERLAP / 10) ++
        sliceLast (CHUNK_OVERLAP / 10) cw := (List.take_append_drop _ cw).symm
    by_cases htake : cw.take (cw.length - CHUNK_OVERLAP / 10) = []
    · rw [htake] at hsplit
      simp only [List.nil_append] at hsplit
      rw [← hsplit]
    · conv_rhs => rw [hsplit]
      rw [JData_append _ _ htake hslice_ne]
      refine ⟨JData (cw.take (cw.length - CHUNK_OVERLAP / 10)) ++ [' '], ?_⟩
      rw [List.append_assoc]
      rfl

theorem seedOf_data (prev w : String) :
    (seedOf prev w).data = (overlapJoin prev).data ++ ' ' :: w.data := by
  unfold seedOf
  rw [String.data_append, String.data_append]
  simp

end Crawler


namespace Crawler

-- append lemmas for indexed invariants
theorem pairs_append (acc : List ChunkRec) (x : ChunkRec)
    (H : ∀ k c c', acc[k]? = some c → acc[k+1]? = some c' → PairP c c')
    (Hlast : ∀ c, acc.getLast? = some c → PairP c x) :
    ∀ k c c', (acc ++ [x])[k]? = some c → (acc ++ [x])[k+1]? = some c' → PairP c c' := by
  intro k c c' hk hk1
  have hlen : k + 1 < (acc ++ [x]).length := (List.getElem?_eq_some.mp hk1).1
  rw [List.length_append, List.length_singleton] at hlen
  by_cases hk1len : k + 1 < acc.length
  · rw [List.getElem?_append_left (by omega)] at hk
    rw [List.getElem?_append_left hk1len] at hk1
    exact H k c c' hk hk1
  · -- k + 1 = acc.length
    have hkeq : k + 1 = acc.length := by omega
    rw [List.getElem?_append_left (by omega)] at hk
    rw [hkeq, List.getElem?_concat_length] at hk1
    cases hk1
    apply Hlast
    rw [List.getLast?_eq_getElem?]
    rw [show acc.length - 1 = k from by omega]
    exact hk

theorem size_append (OW : List String) (acc : List ChunkRec) (x : ChunkRec)
    (H : ∀ k c, acc[k]? = some c → SizeP OW acc k c)
    (Hx : x.content.length ≤ CHUNK_SIZE ∨ (∃ w ∈ OW, x.content = w) ∨
      (∃ c w, acc.getLast? = some c ∧ w ∈ OW ∧ x.content = seedOf c.content w)) :
    ∀ k c, (acc ++ [x])[k]? = some c → SizeP OW (acc ++ [x]) k c := by
  intro k c hk
  have hlen : k < (acc ++ [x]).length := (List.getElem?_eq_some.mp hk).1
  rw [List.length_append, List.length_singleton] at hlen
  by_cases hklen : k < acc.length
  · rw [List.getElem?_append_left hklen] at hk
    rcases H k c hk with h1 | h2 | ⟨p, w, hk0, hp, hw, hc⟩
    · exact Or.inl h1
    · exact Or.inr (Or.inl h2)
    · refine Or.inr (Or.inr ⟨p, w, hk0, ?_, hw, hc⟩)
      rw [List.getElem?_append_left (by omega)]
      exact hp
  · have hkeq : k = acc.length := by omega
    rw [hkeq, List.getElem?_concat_length] at hk
    cases hk
    rcases Hx with h1 | h2 | ⟨p, w, hp, hw, hc⟩
    · exact Or.inl h1
    · exact Or.inr (Or.inl h2)
    · have hacc_ne : acc ≠ [] := by
        intro h0
        rw [h0] at hp
        simp at hp
      refine Or.inr (Or.inr ⟨p, w, ?_, ?_, hw, hc⟩)
      · have := List.length_pos.mpr hacc_ne
        omega
      · rw [hkeq, List.getElem?_append_left (by have := List.length_pos.mpr hacc_ne; omega)]
        rw [List.getLast?_eq_getElem?] at hp
        exact hp

end Crawler

namespace Crawler

theorem string_ne_empty_iff_data (s : String) : s ≠ "" ↔ s.data ≠ [] := by
  constructor
  · intro h hc
    exact h (string_eq_of_data s "" hc)
  · intro h hc
    rw [hc] at h
    exact h rfl

theorem trimTruthy_append (a b : String) :
    trimTruthy (a ++ b) = (trimTruthy a || trimTruthy b) := by
  unfold trimTruthy
  rw [String.data_append, List.any_append]

theorem trimTruthy_of_wsfree_ne (w : String) (hws : wsFreeStr w) (hne : w ≠ "") :
    trimTruthy w = true := by
  unfold trimTruthy
  rw [List.any_eq_true]
  obtain ⟨c, hc⟩ : ∃ c, c ∈ w.data := by
    cases hd : w.data with
    | nil => exact absurd hd ((string_ne_empty_iff_data w).mp hne)
    | cons c cs => exact ⟨c, hd ▸ List.mem_cons_self c cs⟩
  exact ⟨c, hc, by rw [hws c hc]; rfl⟩

theorem chunkLoop_ne_nil (ws : List String) (current : String) (idx : Nat)
    (acc : List ChunkRec)
    (hWF : ∀ w ∈ ws, wsFreeStr w)
    (h : acc ≠ [] ∨ trimTruthy current = true ∨ ∃ w ∈ ws, w ≠ "") :
    chunkLoop ws current idx acc ≠ [] := by
  induction ws generalizing current idx acc with
  | nil =>
    unfold chunkLoop
    rcases h with h1 | h2 | ⟨w, hw, _⟩
    · by_cases ht : trimTruthy current
      · rw [if_pos ht]; simp
      · rw [if_neg ht]; exact h1
    · rw [if_pos h2]; simp
    · exact absurd hw (List.not_mem_nil w)
  | cons w rest ih =>
    unfold chunkLoop
    by_cases hcond : ((current ++ (if current ≠ "" then " " else "") ++ w).length > CHUNK_SIZE
        ∧ current.length > 0)
    · rw [if_pos hcond]
      exact ih _ _ _ (fun x hx => hWF x (List.mem_cons_of_mem w hx)) (Or.inl (by simp))
    · rw [if_neg hcond]
      apply ih _ _ _ (fun x hx => hWF x (List.mem_cons_of_mem w hx))
      rcases h with h1 | h2 | ⟨w2, hw2, hw2ne⟩
      · exact Or.inl h1
      · refine Or.inr (Or.inl ?_)
        rw [trimTruthy_append, trimTruthy_append, h2]
        rfl
      · rcases List.mem_cons.mp hw2 with heq | hmem
        · subst heq
          refine Or.inr (Or.inl ?_)
          rw [trimTruthy_append,
            trimTruthy_of_wsfree_ne w2 (hWF w2 (List.mem_cons_self w2 rest)) hw2ne]
          simp
        · exact Or.inr (Or.inr ⟨w2, hmem, hw2ne⟩)

theorem chunkLoop_indices (ws : List String) (current : String) (acc : List ChunkRec)
    (h : acc.map ChunkRec.chunk_index = List.range acc.length) :
    (chunkLoop ws current acc.length acc).map ChunkRec.chunk_index
      = List.range (chunkLoop ws current acc.length acc).length := by
  induction ws generalizing current acc with
  | nil =>
    unfold chunkLoop
    by_cases ht : trimTruthy current
    · rw [if_pos ht]
      rw [List.map_append, h, List.length_append]
      simp [List.range_succ]
    · rw [if_neg ht]; exact h
  | cons w rest ih =>
    unfold chunkLoop
    by_cases hcond : ((current ++ (if current ≠ "" then " " else "") ++ w).length > CHUNK_SIZE
        ∧ current.length > 0)
    · rw [if_pos hcond]
      have h2 : (acc ++ [(⟨current, current.length, acc.length⟩ : ChunkRec)]).map ChunkRec.chunk_index
          = List.range (acc ++ [(⟨current, current.length, acc.length⟩ : ChunkRec)]).length := by
        rw [List.map_append, h, List.length_append]
        simp [List.range_succ]
      have h3 := ih (seedOf current w) (acc ++ [(⟨current, current.length, acc.length⟩ : ChunkRec)]) h2
      rw [List.length_append, List.length_singleton] at h3
      exact h3
    · rw [if_neg hcond]
      exact ih _ acc h

theorem chunkLoop_content_length (ws : List String) (current : String) (idx : Nat)
    (acc : List ChunkRec)
    (h : ∀ c ∈ acc, c.content_length = c.content.length) :
    ∀ c ∈ chunkLoop ws current idx acc, c.content_length = c.content.length := by
  induction ws generalizing current idx acc with
  | nil =>
    unfold chunkLoop
    by_cases ht : trimTruthy current
    · rw [if_pos ht]
      intro c hc
      rcases List.mem_append.mp hc with h1 | h1
      · exact h c h1
      · rcases List.mem_singleton.mp h1 with rfl
        rfl
    · rw [if_neg ht]; exact h
  | cons w rest ih =>
    unfold chunkLoop
    by_cases hcond : ((current ++ (if current ≠ "" then " " else "") ++ w).length > CHUNK_SIZE
        ∧ current.length > 0)
    · rw [if_pos hcond]
      apply ih
      intro c hc
      rcases List.mem_append.mp hc with h1 | h1
      · exact h c h1
      · rcases List.mem_singleton.mp h1 with rfl
        rfl
    · rw [if_neg hcond]
      exact ih _ _ acc h

end Crawler

namespace Crawler

theorem mem_dropLast_cons (w x : String) (rest : List String)
    (h : x ∈ rest.dropLast) : x ∈ (w :: rest).dropLast := by
  cases rest with
  | nil => simp at h
  | cons y ys =>
    rw [List.dropLast_cons₂]
    exact List.mem_cons_of_mem w h

theorem tokensOkL_append_word (cw : List (List Char)) (hok : tokensOkL cw)
    (w : String) (hwne : w ≠ "") (hw : wsFreeStr w) :
    tokensOkL (cw ++ [w.data]) := by
  intro t ht
  rcases List.mem_append.mp ht with h1 | h1
  · exact hok t h1
  · rcases List.mem_singleton.mp h1 with rfl
    exact ⟨(string_ne_empty_iff_data w).mp hwne, hw⟩

theorem JData_concat (cw : List (List Char)) (hne : cw ≠ []) (x : List Char) :
    JData (cw ++ [x]) = JData cw ++ ' ' :: x := by
  rw [JData_append cw [x] hne (by simp)]
  rfl

-- the central invariant of the createChunks loop
theorem chunkLoop_main (OW : List String) (ws : List String) (current : String)
    (idx : Nat) (acc : List ChunkRec)
    (hSub : ∀ w ∈ ws, w ∈ OW)
    (hWF : ∀ w ∈ ws, wsFreeStr w)
    (hMid : ∀ w ∈ ws.dropLast, w ≠ "")
    (hCur : ws ≠ [] → (current = "" ∨
      ∃ cw, cw ≠ [] ∧ tokensOkL cw ∧ current.data = JData cw))
    (hSize : current.length ≤ CHUNK_SIZE ∨ (∃ w ∈ OW, current = w) ∨
      (∃ c w, acc.getLast? = some c ∧ w ∈ OW ∧ current = seedOf c.content w))
    (hLink : acc = [] ∨ (current ≠ "" ∧ ∃ c, acc.getLast? = some c ∧
      ((overlapJoin c.content ++ " ").data).IsPrefix current.data))
    (hLastRepr : acc = [] ∨ ∃ c, acc.getLast? = some c ∧
      ∃ cw, cw ≠ [] ∧ tokensOkL cw ∧ c.content.data = JData cw)
    (hPairs : ∀ k c c', acc[k]? = some c → acc[k+1]? = some c' → PairP c c')
    (hSizes : ∀ k c, acc[k]? = some c → SizeP OW acc k c) :
    (∀ k c c', (chunkLoop ws current idx acc)[k]? = some c →
      (chunkLoop ws current idx acc)[k+1]? = some c' → PairP c c') ∧
    (∀ k c, (chunkLoop ws current idx acc)[k]? = some c →
      SizeP OW (chunkLoop ws current idx acc) k c) := by
  induction ws generalizing current idx acc with
  | nil =>
    unfold chunkLoop
    by_cases ht : trimTruthy current
    · rw [if_pos ht]
      constructor
      · apply pairs_append acc _ hPairs
        intro c hc
        constructor
        · rcases hLastRepr with h0 | ⟨c0, hc0, hrepr⟩
          · rw [h0] at hc; simp at hc
          · rw [hc0] at hc; cases hc; exact hrepr
        · rcases hLink with h0 | ⟨hne, c0, hc0, hpre⟩
          · rw [h0] at hc; simp at hc
          · rw [hc0] at hc; cases hc; exact hpre
      · apply size_append OW acc _ hSizes
        exact hSize
    · rw [if_neg ht]
      exact ⟨hPairs, hSizes⟩
  | cons w rest ih =>
    unfold chunkLoop
    by_cases hcond : ((current ++ (if current ≠ "" then " " else "") ++ w).length > CHUNK_SIZE
        ∧ current.length > 0)
    · rw [if_pos hcond]
      -- push branch
      have hcur_ne : current ≠ "" := by
        rw [string_ne_empty_iff_data]
        intro h0
        have : current.length = 0 := by
          show current.data.length = 0
          rw [h0]; rfl
        omega
      obtain ⟨cw, hcw_ne, hcw_ok, hcw_data⟩ : ∃ cw, cw ≠ [] ∧ tokensOkL cw ∧
          current.data = JData cw := by
        rcases hCur (by simp) with h0 | h0
        · exact absurd h0 hcur_ne
        · exact h0
      have hslice_ne : sliceLast (CHUNK_OVERLAP / 10) cw ≠ [] :=
        sliceLast_ne_nil _ (by decide) cw hcw_ne
      have hoj : (overlapJoin current).data = JData (sliceLast (CHUNK_OVERLAP / 10) cw) :=
        overlapJoin_data current cw hcw_ne hcw_ok hcw_data
      have hseed_data : (seedOf current w).data
          = JData (sliceLast (CHUNK_OVERLAP / 10) cw) ++ ' ' :: w.data := by
        rw [seedOf_data, hoj]
      -- invariants for the recursive call
      apply ih (seedOf current w) (idx + 1)
        (acc ++ [(⟨current, current.length, idx⟩ : ChunkRec)])
      · exact fun x hx => hSub x (List.mem_cons_of_mem w hx)
      · exact fun x hx => hWF x (List.mem_cons_of_mem w hx)
      · intro x hx
        exact hMid x (mem_dropLast_cons w x rest hx)
      · intro hrest_ne
        right
        have hw_ne : w ≠ "" := by
          apply hMid w
          cases rest with
          | nil => exact absurd rfl hrest_ne
          | cons y ys => rw [List.dropLast_cons₂]; exact List.mem_cons_self w _
        refine ⟨sliceLast (CHUNK_OVERLAP / 10) cw ++ [w.data], by simp, ?_, ?_⟩
        · apply tokensOkL_append_word _ ?_ w hw_ne (hWF w (List.mem_cons_self w rest))
          intro t ht
          exact hcw_ok t (sliceLast_sub _ cw t ht)
        · rw [hseed_data, JData_concat _ hslice_ne]
      · -- size of the new current: it is the seed of the new last chunk
        refine Or.inr (Or.inr ⟨⟨current, current.length, idx⟩, w, ?_, hSub w (List.mem_cons_self w rest), rfl⟩)
        rw [List.getLast?_concat]
      · -- link: new current starts with the new last chunk's overlap join
        right
        constructor
        · rw [string_ne_empty_iff_data, hseed_data]
          intro h0
          have := congrArg List.length h0
          simp at this
        · refine ⟨⟨current, current.length, idx⟩, by rw [List.getLast?_concat], ?_⟩
          show ((overlapJoin current ++ " ").data).IsPrefix (seedOf current w).data
          rw [String.data_append, hseed_data, hoj]
          refine ⟨w.data, ?_⟩
          rw [List.append_assoc]
          rfl
      · -- last repr: the pushed chunk is the old current
        right
        refine ⟨⟨current, current.length, idx⟩, by rw [List.getLast?_concat],
          cw, hcw_ne, hcw_ok, hcw_data⟩
      · -- pairs extended with (old last, pushed)
        apply pairs_append acc _ hPairs
        intro c hc
        constructor
        · rcases hLastRepr with h0 | ⟨c0, hc0, hrepr⟩
          · rw [h0] at hc; simp at hc
          · rw [hc0] at hc; cases hc; exact hrepr
        · rcases hLink with h0 | ⟨hne, c0, hc0, hpre⟩
          · rw [h0] at hc; simp at hc
          · rw [hc0] at hc; cases hc; exact hpre
      · -- sizes extended with the pushed chunk
        apply size_append OW acc _ hSizes
        exact hSize
    · rw [if_neg hcond]
      -- accumulate branch
      apply ih _ idx acc
      · exact fun x hx => hSub x (List.mem_cons_of_mem w hx)
      · exact fun x hx => hWF x (List.mem_cons_of_mem w hx)
      · intro x hx
        exact hMid x (mem_dropLast_cons w x rest hx)
      · intro hrest_ne
        have hw_ne : w ≠ "" := by
          apply hMid w
          cases rest with
          | nil => exact absurd rfl hrest_ne
          | cons y ys => rw [List.dropLast_cons₂]; exact List.mem_cons_self w _
        right
        by_cases hcur : current = ""
        · refine ⟨[w.data], by simp, ?_, ?_⟩
          · intro t ht
            rcases List.mem_singleton.mp ht with rfl
            exact ⟨(string_ne_empty_iff_data w).mp hw_ne,
              hWF w (List.mem_cons_self w rest)⟩
          · rw [String.data_append, String.data_append]
            rw [if_neg (by simpa using hcur)]
            rw [show current.data = [] from by rw [hcur]]
            rfl
        · obtain ⟨cw, hcw_ne, hcw_ok, hcw_data⟩ : ∃ cw, cw ≠ [] ∧ tokensOkL cw ∧
              current.data = JData cw := by
            rcases hCur (by simp) with h0 | h0
            · exact absurd h0 hcur
            · exact h0
          refine ⟨cw ++ [w.data], by simp, ?_, ?_⟩
          · apply tokensOkL_append_word cw hcw_ok w hw_ne (hWF w (List.mem_cons_self w rest))
          · rw [String.data_append, String.data_append]
            rw [if_pos (by simpa using hcur)]
            rw [hcw_data, JData_concat cw hcw_ne]
            simp
      · -- size of the accumulated buffer
        rcases Decidable.not_and_iff_or_not.mp hcond with hts | hlen
        · exact Or.inl (Nat.le_of_not_lt hts)
        · have hcur : current = "" := by
            have h1 : current.length = 0 := by omega
            have h2 : current.data.length = 0 := h1
            exact string_eq_of_data current "" (List.length_eq_zero.mp h2)
          refine Or.inr (Or.inl ⟨w, hSub w (List.mem_cons_self w rest), ?_⟩)
          apply string_eq_of_data
          rw [String.data_append, String.data_append]
          rw [if_neg (by simpa using hcur)]
          rw [show current.data = [] from by rw [hcur]]
          rfl
      · -- link survives appending to the buffer
        rcases hLink with h0 | ⟨hne, c, hc, hpre⟩
        · exact Or.inl h0
        · refine Or.inr ⟨?_, c, hc, ?_⟩
          · rw [string_ne_empty_iff_data, String.data_append, String.data_append]
            intro h1
            rcases List.append_eq_nil.mp h1 with ⟨h2, h2b⟩
            rcases List.append_eq_nil.mp h2 with ⟨h3, h3b⟩
            exact hne (string_eq_of_data current "" h3)
          · rw [String.data_append, String.data_append]
            exact hpre.trans ((List.prefix_append _ _).trans (List.prefix_append _ _))
      · exact hLastRepr
      · exact hPairs
      · exact hSizes

end Crawler

namespace Crawler

theorem splitWsCore_exists_ne (l : List Char) (h : ∃ c ∈ l, isWsChar c = false) :
    ∃ t ∈ splitWsCore l, t ≠ [] := by
  induction l with
  | nil => rcases h with ⟨c, hc, _⟩; exact absurd hc (List.not_mem_nil c)
  | cons c rest ih =>
    by_cases hc : isWsChar c
    · have hrest : ∃ x ∈ rest, isWsChar x = false := by
        rcases h with ⟨x, hx, hxf⟩
        rcases List.mem_cons.mp hx with rfl | hx2
        · rw [hc] at hxf; cases hxf
        · exact ⟨x, hx2, hxf⟩
      obtain ⟨t, ht, htne⟩ := ih hrest
      cases rest with
      | nil => rcases hrest with ⟨x, hx, _⟩; exact absurd hx (List.not_mem_nil x)
      | cons d r =>
        by_cases hd : isWsChar d
        · rw [splitWsCore_ws_ws c d r hc hd]
          exact ⟨t, ht, htne⟩
        · rw [splitWsCore_ws_notws c d r hc (by simpa using hd)]
          exact ⟨t, List.mem_cons_of_mem _ ht, htne⟩
    · obtain ⟨t0, ts, hts, heq⟩ := splitWsCore_cons_not_ws c rest (by simpa using hc)
      rw [heq]
      exact ⟨c :: t0, List.mem_cons_self _ _, by simp⟩

theorem splitWs_wsFree (text : String) : ∀ w ∈ splitWs text, wsFreeStr w := by
  intro w hw
  unfold splitWs at hw
  rcases List.mem_map.mp hw with ⟨t, ht, rfl⟩
  intro c hc
  exact splitWsCore_wsFree text.data t ht c hc

theorem splitWs_inner_ne (text : String) :
    ∀ w ∈ (splitWs text).tail.dropLast, w ≠ "" := by
  intro w hw
  unfold splitWs at hw
  rw [← List.map_tail, ← List.map_dropLast] at hw
  rcases List.mem_map.mp hw with ⟨t, ht, rfl⟩
  have := splitWsCore_inner_ne_nil text.data t ht
  rw [string_ne_empty_iff_data]
  exact this

theorem createChunks_invariant (text : String) :
    (∀ k c c', (createChunks text)[k]? = some c →
      (createChunks text)[k+1]? = some c' → PairP c c') ∧
    (∀ k c, (createChunks text)[k]? = some c →
      SizeP (splitWs text) (createChunks text) k c) := by
  have hWF := splitWs_wsFree text
  have hInner := splitWs_inner_ne text
  have hne := splitWsCore_ne_nil text.data
  cases htok : splitWs text with
  | nil =>
    exact absurd (by simpa [splitWs, htok] using congrArg (List.map String.data) htok)
      (by simpa using hne)
  | cons w0 rest =>
    have hsub0 : ∀ w ∈ splitWs text, w ∈ splitWs text := fun w hw => hw
    have hWF2 : ∀ w ∈ w0 :: rest, wsFreeStr w := by
      rw [← htok]; exact hWF
    have hInner2 : ∀ w ∈ rest.dropLast, w ≠ "" := by
      intro w hw
      apply hInner w
      rw [htok]
      exact hw
    by_cases h0 : w0 = ""
    · -- leading empty token: the first iteration leaves the state unchanged
      have hstep : createChunks text = chunkLoop rest "" 0 [] := by
        unfold createChunks
        rw [htok, h0]
        rfl
      rw [hstep]
      apply chunkLoop_main (w0 :: rest) rest "" 0 []
      · intro w hw; exact List.mem_cons_of_mem w0 hw
      · intro w hw; exact hWF2 w (List.mem_cons_of_mem w0 hw)
      · exact hInner2
      · intro _; exact Or.inl rfl
      · exact Or.inl (Nat.zero_le _)
      · exact Or.inl rfl
      · exact Or.inl rfl
      · intro k c c' hk; simp at hk
      · intro k c hk; simp at hk
    · have hstep : createChunks text = chunkLoop (w0 :: rest) "" 0 [] := by
        unfold createChunks
        rw [htok]
      rw [hstep]
      apply chunkLoop_main (w0 :: rest) (w0 :: rest) "" 0 []
      · intro w hw; exact hw
      · exact hWF2
      · intro w hw
        cases rest with
        | nil => simp at hw
        | cons y ys =>
          rw [List.dropLast_cons₂] at hw
          rcases List.mem_cons.mp hw with rfl | hw2
          · exact h0
          · exact hInner2 w hw2
      · intro _; exact Or.inl rfl
      · exact Or.inl (Nat.zero_le _)
      · exact Or.inl rfl
      · exact Or.inl rfl
      · intro k c c' hk; simp at hk
      · intro k c hk; simp at hk

end Crawler

namespace Crawler

/-- C4: every chunk record `createChunks` returns carries
`content_length` equal to the length of its `content`, the
`chunk_index` fields count up from 0 in order, and each chunk's content
is within `CHUNK_SIZE` characters unless it is a single oversized source
word or it is the 20-word overlap seed of the previous chunk joined with
the next source word (the seed is emitted unsplit even when the result
exceeds `CHUNK_SIZE`); at least one chunk is produced whenever the
trimmed text is nonempty. -/
theorem createChunks_chunk_properties (text : String) :
    (trimTruthy text = true → 1 ≤ (createChunks text).length) ∧
    ((createChunks text).map ChunkRec.chunk_index = List.range (createChunks text).length) ∧
    (∀ k c, (createChunks text)[k]? = some c →
      c.content_length = c.content.length ∧
      (c.content.length ≤ CHUNK_SIZE ∨
       (∃ w ∈ splitWs text, c.content = w) ∨
       (∃ p w, k ≠ 0 ∧ (createChunks text)[k-1]? = some p ∧ w ∈ splitWs text ∧
         c.content = seedOf p.content w))) := by
  refine ⟨?_, ?_, ?_⟩
  · intro ht
    have hnonempty : ∃ w ∈ splitWs text, w ≠ "" := by
      have hex : ∃ c ∈ text.data, isWsChar c = false := by
        unfold trimTruthy at ht
        rcases List.any_eq_true.mp ht with ⟨c, hc, hcf⟩
        exact ⟨c, hc, by simpa using hcf⟩
      obtain ⟨t, htmem, htne⟩ := splitWsCore_exists_ne text.data hex
      refine ⟨String.mk t, ?_, ?_⟩
      · unfold splitWs; exact List.mem_map_of_mem _ htmem
      · rw [string_ne_empty_iff_data]; exact htne
    have hne2 := chunkLoop_ne_nil (splitWs text) "" 0 [] (splitWs_wsFree text)
      (Or.inr (Or.inr hnonempty))
    exact List.length_pos.mpr hne2
  · exact chunkLoop_indices (splitWs text) "" [] rfl
  · intro k c hk
    constructor
    · obtain ⟨hlt, heq⟩ := List.getElem?_eq_some.mp hk
      exact chunkLoop_content_length (splitWs text) "" 0 []
        (by intro x hx; simp at hx) c (heq ▸ List.getElem_mem _)
    · have hs := (createChunks_invariant text).2 k c hk
      unfold SizeP at hs
      exact hs


/-- Witness for C4: on the concrete text "hello world" the chunk
properties hold. -/
theorem createChunks_chunk_properties_witness :
    trimTruthy "hello world" = true ∧
    1 ≤ (createChunks "hello world").length ∧
    (createChunks "hello world")[0]? = some ⟨"hello world", 11, 0⟩ ∧
    ((⟨"hello world", 11, 0⟩ : ChunkRec).content_length
      = (⟨"hello world", 11, 0⟩ : ChunkRec).content.length ∧
     ((⟨"hello world", 11, 0⟩ : ChunkRec).content.length ≤ CHUNK_SIZE ∨
      (∃ w ∈ splitWs "hello world", (⟨"hello world", 11, 0⟩ : ChunkRec).content = w) ∨
      (∃ p w, (0 : Nat) ≠ 0 ∧ (createChunks "hello world")[0-1]? = some p ∧
        w ∈ splitWs "hello world" ∧
        (⟨"hello world", 11, 0⟩ : ChunkRec).content = seedOf p.content w))) :=
  ⟨by decide, (createChunks_chunk_properties "hello world").1 (by decide), by decide,
   (createChunks_chunk_properties "hello world").2.2 0 ⟨"hello world", 11, 0⟩ (by decide)⟩

set_option maxRecDepth 16000 in
/-- Counterexample for C4 (two parts). A whitespace-only input is
nonempty yet yields no chunks, against the claim that non-empty text
yields at least one chunk. And on `text22x71` — 22 words of 71
characters — the second and third chunks are 1511 characters, above
`CHUNK_SIZE = 1500`, even though every source word fits within
`CHUNK_SIZE`: the 20-word overlap seed plus the next word is committed
as one unit without re-checking the size cap. -/
theorem createChunks_size_invariant_cex :
    (createChunks " " = [] ∧ (" " : String) ≠ "") ∧
    ((createChunks text22x71).map ChunkRec.content_length = [1439, 1511, 1511] ∧
     1511 > CHUNK_SIZE ∧
     ∀ w ∈ splitWs text22x71, w.length ≤ CHUNK_SIZE) := by
  decide

/-- C9: every chunk after the first starts with the overlap seed — the
join of the last (at most 20) words of the previous chunk — followed by
a space, and that seed is a nonempty suffix of the previous chunk's
content. -/
theorem chunk_overlap_seed_prefix (text : String) (k : Nat) (c c' : ChunkRec)
    (h1 : (createChunks text)[k]? = some c)
    (h2 : (createChunks text)[k+1]? = some c') :
    overlapJoin c.content ≠ "" ∧
    ((overlapJoin c.content ++ " ").data).IsPrefix c'.content.data ∧
    ((overlapJoin c.content).data).IsSuffix c.content.data := by
  have hp := (createChunks_invariant text).1 k c c' h1 h2
  unfold PairP at hp
  obtain ⟨⟨cw, hcw_ne, hcw_ok, hcw_data⟩, hpre⟩ := hp
  have hsuf := overlapJoin_suffix c.content cw hcw_ne hcw_ok hcw_data
  refine ⟨?_, hpre, hsuf.2⟩
  rw [string_ne_empty_iff_data]
  exact hsuf.1

set_option maxRecDepth 16000 in
/-- Witness for C9: on `text22x71` the second chunk starts with the
20-word overlap seed of the first chunk followed by a space. -/
theorem chunk_overlap_seed_prefix_witness :
    (createChunks text22x71)[0]? = some chunk22A ∧
    (createChunks text22x71)[0+1]? = some chunk22B ∧
    (overlapJoin chunk22A.content ≠ "" ∧
     ((overlapJoin chunk22A.content ++ " ").data).IsPrefix chunk22B.content.data ∧
     ((overlapJoin chunk22A.content).data).IsSuffix chunk22A.content.data) :=
  ⟨by rfl, by rfl,
   chunk_overlap_seed_prefix text22x71 0 chunk22A chunk22B (by rfl) (by rfl)⟩

end Crawler
